import Mathlib

/-!
# Verification of the obnb sparse-graph engine specification

A shallow embedding, in Lean 4, of the core of the `obnb` repository:
the bidirectional identifier/index map (`NLEval/util/IDmap.py`, and the
`idhandler.IDmap` used by `NLEval/graph/sparse.py`), and the adjacency-list
graph containers (`SparseGraph`, `DirectedSparseGraph`) of
`NLEval/graph/sparse.py`, together with their readers and writers.

Modelling conventions:

* Python `dict`s are modelled as insertion-ordered association lists
  (`List (κ × α)`): assignment to an existing key replaces the value in
  place, assignment to a fresh key appends at the end, exactly as CPython
  dictionaries behave.
* Python `float` values are modelled exactly, as unnormalized fractions
  `PyFloat` with an integer numerator and a (power-of-ten) natural
  denominator.  Every float literal appearing in the sources and claims
  (edge weights such as 0.4, 1.0, 3.0, thresholds, the default weight
  `float(1)`) is exactly representable, so the rational model is faithful:
  comparisons (`==`, `<=`, `max`, `min`) are the exact rational ones.
* Python exceptions are modelled by an `Err` code returned next to the
  state reached when the exception is raised (CPython mutates in place, so
  the state at raise time is observable). `Err.duplicateId` stands for
  `IDExistsError` / the duplicate-`assert` failure, `Err.unknownId` for
  `IDNotExistError` / a `KeyError` on a missing identifier, and
  `Err.invalidArgument` for `ValueError`.
-/

namespace Obnb

/-- Error taxonomy of the spec: `DuplicateIdError`, `UnknownIdError`,
`InvalidArgumentError` (mapped from the Python exception classes as
described in the header). -/
inductive Err where
  | duplicateId
  | unknownId
  | invalidArgument
  deriving DecidableEq, Repr

instance {ε α : Type} [DecidableEq ε] [DecidableEq α] : DecidableEq (Except ε α) := by
  intro a b
  cases a <;> cases b
  case error.error x y =>
    exact if h : x = y then .isTrue (by rw [h]) else .isFalse (by simp [h])
  case ok.ok x y =>
    exact if h : x = y then .isTrue (by rw [h]) else .isFalse (by simp [h])
  case error.ok x y => exact .isFalse (by simp)
  case ok.error x y => exact .isFalse (by simp)

/-! ## Insertion-ordered dictionaries (CPython `dict` semantics) -/

/-- `d[k]` lookup: first (and, for key-unique lists, only) binding of `k`. -/
def alookup {κ α : Type} [DecidableEq κ] : List (κ × α) → κ → Option α
  | [], _ => none
  | p :: rest, k => if p.1 = k then some p.2 else alookup rest k

/-- `d[k] = v`: replace in place if the key is present (keeping its
position, as CPython does), otherwise append at the end. -/
def dinsert {κ α : Type} [DecidableEq κ] : List (κ × α) → κ → α → List (κ × α)
  | [], k, v => [(k, v)]
  | p :: rest, k, v => if p.1 = k then (k, v) :: rest else p :: dinsert rest k v

/-- `d.pop(k)` / `del d[k]`: drop the binding of `k` (first occurrence). -/
def aerase {κ α : Type} [DecidableEq κ] : List (κ × α) → κ → List (κ × α)
  | [], _ => []
  | p :: rest, k => if p.1 = k then rest else p :: aerase rest k

/-- Key list of a dictionary. -/
def akeys {κ α : Type} (m : List (κ × α)) : List κ := m.map Prod.fst

/-! ## Exact model of the Python floats appearing in the engine -/

/-- An exact, unnormalized fraction `num / den`.  All floats produced by
the engine's parsers have a power-of-ten denominator, hence are exactly
representable; no IEEE rounding is modelled (the concrete values in the
sources and claims are all exactly representable in binary64 up to the
semantic comparisons actually performed, which are modelled exactly). -/
structure PyFloat where
  num : Int
  den : Nat
  deriving DecidableEq, Repr

namespace PyFloat

/-- The float denoting the integer `n` (`float(n)`). -/
def ofInt (n : Int) : PyFloat := ⟨n, 1⟩

/-- Semantic equality (`x == y` on Python floats), by cross-multiplication. -/
def beq (x y : PyFloat) : Bool := x.num * (y.den : Int) == y.num * (x.den : Int)

/-- Semantic `x <= y`. -/
def ble (x y : PyFloat) : Bool := decide (x.num * (y.den : Int) ≤ y.num * (x.den : Int))

/-- Semantic `x < y`. -/
def blt (x y : PyFloat) : Bool := decide (x.num * (y.den : Int) < y.num * (x.den : Int))

/-- Python `max(x, y)`: returns `x` when `x >= y`, else `y` (ties keep the
first argument). -/
def pymax (x y : PyFloat) : PyFloat := if x.blt y then y else x

/-- Python `min(x, y)`: returns `x` when `x <= y`, else `y`. -/
def pymin (x y : PyFloat) : PyFloat := if x.ble y then x else y

end PyFloat

/-- `float(1)`, the default edge weight. -/
def one : PyFloat := PyFloat.ofInt 1

/-- `0`, the threshold and absent-edge value. -/
def zero : PyFloat := PyFloat.ofInt 0

/-- A `get_edge` result semantically equals (`==` on Python floats) the
given value. -/
def exBeq (r : Except Err PyFloat) (x : PyFloat) : Bool :=
  match r with
  | .ok v => v.beq x
  | .error _ => false

/-! ## The Python `float(...)` string parser and `str(...)` renderers

Used by `IDmap.addID` to canonicalize numeric identifier spellings.  The
model covers the decimal forms (optional surrounding whitespace, optional
sign, digits with an optional decimal point, optional exponent); the exotic
spellings accepted by CPython (`inf`, `nan`, digit-group underscores) are
treated as unparseable and pass through unchanged, and the scientific
notation that `repr(float)` switches to outside `[1e-4, 1e16)` is not
modelled — none of these arise in the repository or its data. -/

/-- Whitespace stripped by `float(...)`. -/
def isPyWs (c : Char) : Bool :=
  c = ' ' ∨ c = '\t' ∨ c = '\n' ∨ c = '\r' ∨ c = '\x0c' ∨ c = '\x0b'

/-- Read a maximal run of decimal digits: value, digit count, rest. -/
def readDigits : List Char → Nat → Nat → Nat × Nat × List Char
  | [], acc, cnt => (acc, cnt, [])
  | c :: rest, acc, cnt =>
    if '0' ≤ c ∧ c ≤ '9' then readDigits rest (acc * 10 + (c.toNat - 48)) (cnt + 1)
    else (acc, cnt, c :: rest)

/-- `float(s)` on the decimal forms; `none` models `ValueError`. -/
def pyFloatParse (s : String) : Option PyFloat :=
  let cs := (s.toList.dropWhile isPyWs).reverse.dropWhile isPyWs |>.reverse
  let sgn : Int × List Char :=
    match cs with
    | '+' :: r => (1, r)
    | '-' :: r => (-1, r)
    | r => (1, r)
  let d1 := readDigits sgn.2 0 0
  let ic := d1.2.1
  let afterInt := d1.2.2
  let fr : Nat × Nat × List Char :=
    match afterInt with
    | '.' :: r =>
      let d2 := readDigits r 0 0
      (d2.1, d2.2.1, d2.2.2)
    | r => (0, 0, r)
  let fp := fr.1
  let fc := fr.2.1
  let rest := fr.2.2
  if ic + fc = 0 then none
  else
    let mant : Int := sgn.1 * (d1.1 * 10 ^ fc + fp)
    match rest with
    | [] => some ⟨mant, 10 ^ fc⟩
    | e :: r =>
      if e = 'e' ∨ e = 'E' then
        let es : Bool × List Char :=
          match r with
          | '+' :: r2 => (true, r2)
          | '-' :: r2 => (false, r2)
          | r2 => (true, r2)
        let d3 := readDigits es.2 0 0
        if d3.2.1 = 0 ∨ d3.2.2 ≠ [] then none
        else if es.1 then some ⟨mant * 10 ^ d3.1, 10 ^ fc⟩
        else some ⟨mant, 10 ^ fc * 10 ^ d3.1⟩
      else none

/-- `str(n)` for a Python int. -/
def intStr (i : Int) : String :=
  (if i < 0 then "-" else "") ++ Nat.repr i.natAbs

/-- Strip factors of ten shared by `num` and `10 ^ j` (fuelled loop). -/
def stripTens : Nat → Int → Nat → Int × Nat
  | 0, num, j => (num, j)
  | fuel + 1, num, j =>
    if j ≠ 0 ∧ num % 10 = 0 then stripTens fuel (num / 10) (j - 1) else (num, j)

/-- `str(x)` for a non-integral float `num / 10 ^ j` written positionally
(`"-1.25"`, `"0.5"`, ...), matching CPython's shortest-decimal `repr` on
the plain decimal range. -/
def decStr (num : Int) (j : Nat) : String :=
  let s := stripTens j num j
  let m := s.1
  let k := s.2
  let digits := (Nat.repr m.natAbs).toList
  let digits := if digits.length ≤ k then List.replicate (k + 1 - digits.length) '0' ++ digits else digits
  let n := digits.length
  (if m < 0 then "-" else "") ++
    String.mk (digits.take (n - k)) ++ "." ++ String.mk (digits.drop (n - k))

/-- Base-ten logarithm by a fuelled loop (the denominators produced by
`pyFloatParse` are powers of ten, so this is exact where used). -/
def tenLogAux : Nat → Nat → Nat
  | 0, _ => 0
  | fuel + 1, n => if n % 10 = 0 ∧ 10 ≤ n then tenLogAux fuel (n / 10) + 1 else 0

/-- `tenLog (10 ^ j) = j`. -/
def tenLog (n : Nat) : Nat := tenLogAux n n

/-- The identifier canonicalization of `IDmap.addID`
(`NLEval/util/IDmap.py`, lines 75–80): try to parse the identifier as a
float; if it parses and is integral, re-render it as `str(int(num))`,
if it parses and is non-integral re-render it as `str(num)`, and on
`ValueError` keep the identifier unchanged. -/
def canonId (s : String) : String :=
  match pyFloatParse s with
  | none => s
  | some q =>
    if q.num % (q.den : Int) = 0 ∧ q.den ≠ 0 then intStr (q.num / (q.den : Int))
    else decStr q.num (tenLog q.den)

/-! ## IDmap (`NLEval/util/IDmap.py`)

The bidirectional identifier/index map: `data` is the Python dict mapping
identifier to index, `lst` the list of identifiers in index order.  The
`idhandler.IDmap` consumed by `NLEval/graph/sparse.py` has the same data
model (spec §3, §4.1); where its file is absent from the sources its
behaviour is modelled from the spec and flagged in the relevant
definitions. -/

structure IDmap where
  data : List (String × Nat)
  lst : List String
  deriving DecidableEq, Repr

namespace IDmap

def empty : IDmap := ⟨[], []⟩

/-- `len(self._data)`. -/
def size (m : IDmap) : Nat := m.data.length

/-- `key in self._data` (`__contains__`). -/
def mem (m : IDmap) (s : String) : Bool := (alookup m.data s).isSome

/-- `self._data[key]` as a partial lookup; `none` is the missing-key case
(`KeyError` in `IDmap.py`, `IDNotExistError` in the spec's taxonomy). -/
def lookup (m : IDmap) (s : String) : Option Nat := alookup m.data s

/-- `addID` (`IDmap.py` lines 70–83): canonicalize the identifier, fail if
the canonical identifier is already present (the duplicate `assert`),
otherwise append it with index `self.size`.  The second component of the
result pair is the value the Python method returns: the method body has no
`return` statement, so it is always `none` (Python `None`). -/
def addID (m : IDmap) (s : String) : (IDmap × Option Nat) × Option Err :=
  let c := canonId s
  if (alookup m.data c).isSome then ((m, none), some .duplicateId)
  else ((⟨m.data ++ [(c, m.size)], m.lst ++ [c]⟩, none), none)

/-- The state after `addID`, discarding return value and error. -/
def addID1 (m : IDmap) (s : String) : IDmap := (m.addID s).1.1

/-- The reassignment loop of `pop`:
`for i, ID in enumerate(self.lst[idx:]): self.data[ID] = idx + i`. -/
def reindexFrom : List (String × Nat) → Nat → List String → List (String × Nat)
  | d, _, [] => d
  | d, i, s :: rest => reindexFrom (dinsert d s i) (i + 1) rest

/-- `pop` (`IDmap.py` lines 64–68): `self.data.pop(ID)` (raising on a
missing identifier), remove position `idx` from the list, then reassign
`self.data[ID] = idx + i` for every identifier of the shifted tail. -/
def pop (m : IDmap) (s : String) : IDmap × Option Err :=
  match alookup m.data s with
  | none => (m, some .unknownId)
  | some idx =>
    let data1 := aerase m.data s
    let lst1 := m.lst.eraseIdx idx
    (⟨reindexFrom data1 idx (lst1.drop idx), lst1⟩, none)

/-- `idx2ID` / `getID`: identifier at an index (`none` = `IndexError`). -/
def getID (m : IDmap) (i : Nat) : Option String := m.lst.get? i

/-- Modelled from the spec: `idhandler.IDmap.from_list` (the file
`NLEval/util/idhandler.py` is not among the sources; spec §4.4 says the
archive reader "reconstructs IDmap from the identifier array (order
preserved)").  Modelled as `add_id` applied in order, stopping at the
first error. -/
def fromListGo : List String → IDmap → IDmap × Option Err
  | [], m => (m, none)
  | s :: rest, m =>
    match m.addID s with
    | ((m1, _), none) => fromListGo rest m1
    | ((m1, _), some e) => (m1, some e)

def fromList (ids : List String) : IDmap × Option Err := fromListGo ids empty

end IDmap

/-! ## SparseGraph (`NLEval/graph/sparse.py`)

Node `i`'s neighbours are `edgeData[i]`, a dict from neighbour index to
edge weight. -/

abbrev NbrMap := List (Nat × PyFloat)
abbrev EdgeData := List NbrMap

/-- Read row `i` of an adjacency store (`edge_data[i]`; rows are in range
for the graphs the engine constructs, see `SparseGraph.WF`). -/
def edGet (ed : EdgeData) (i : Nat) : NbrMap := ed.getD i []

/-- Write row `i` of an adjacency store. -/
def edSet (ed : EdgeData) (i : Nat) (row : NbrMap) : EdgeData := ed.set i row

/-- The store commit of `_add_edge`: write the reduced weight at
`[i1][i2]` and, when the graph is undirected, mirror it at `[i2][i1]`. -/
def mirrorWrite (directed : Bool) (ed : EdgeData) (ia ib : Nat) (w1 : PyFloat) : EdgeData :=
  if ¬directed then
    edSet (edSet ed ia (dinsert (edGet ed ia) ib w1)) ib
      (dinsert (edGet (edSet ed ia (dinsert (edGet ed ia) ib w1)) ib) ia w1)
  else edSet ed ia (dinsert (edGet ed ia) ib w1)

structure SparseGraph where
  idmap : IDmap
  edgeData : EdgeData
  weighted : Bool
  directed : Bool
  selfLoops : Bool
  deriving DecidableEq, Repr

namespace SparseGraph

/-- `SparseGraph(weighted=..., directed=..., self_loops=...)`. -/
def mkEmpty (weighted directed selfLoops : Bool) : SparseGraph :=
  ⟨IDmap.empty, [], weighted, directed, selfLoops⟩

/-- `size` (from `BaseGraph`): the number of nodes, `idmap.size`. -/
def size (g : SparseGraph) : Nat := g.idmap.size

/-- `num_edges` (`sparse.py` lines 58–61): the sum of the neighbor-map
sizes of the adjacency store. -/
def numEdges (g : SparseGraph) : Nat := (g.edgeData.map List.length).sum

/-- `add_id` (`sparse.py` lines 129–136, single-identifier case): add the
identifier to the IDmap and append a fresh empty adjacency row. -/
def addId (g : SparseGraph) (s : String) : SparseGraph × Option Err :=
  match g.idmap.addID s with
  | ((m, _), some e) => ({ g with idmap := m }, some e)
  | ((m, _), none) => ({ g with idmap := m, edgeData := g.edgeData ++ [[]] }, none)

/-- `_default_add_id` (`sparse.py` lines 124–127): add the identifier only
if the raw spelling is not yet a key of the IDmap. -/
def defaultAddId (g : SparseGraph) (s : String) : SparseGraph × Option Err :=
  if g.idmap.mem s then (g, none) else g.addId s

/-- `_add_edge` (`sparse.py` lines 138–189) acting on a given adjacency
store `ed` (the forward or, for directed graphs, the reversed store).
Returns the updated store, whether the duplicate-edge warning fired, and
the error of a failed IDmap lookup.  Mirrors the source exactly: resolve
both indices, silently skip self loops when they are disabled, reduce a
duplicated differing weight by `max`/`min` (or warn and overwrite when no
reduction is set), then commit, mirroring the entry when undirected. -/
def addEdgeRaw (g : SparseGraph) (id1 id2 : String) (w : PyFloat)
    (reduction : Option String) (ed : EdgeData) : (EdgeData × Bool) × Option Err :=
  match g.idmap.lookup id1, g.idmap.lookup id2 with
  | some i1, some i2 =>
    if ¬g.selfLoops ∧ i1 = i2 then ((ed, false), none)
    else
      let old := alookup (edGet ed i1) i2
      let warn : Bool :=
        match old with
        | some ow => !ow.beq w && reduction.isNone
        | none => false
      let w1 :=
        match old with
        | some ow =>
          if ¬ow.beq w then
            match reduction with
            | some r => if r = "max" then ow.pymax w else if r = "min" then ow.pymin w else w
            | none => w
          else w
        | none => w
      let ed1 := edSet ed i1 (dinsert (edGet ed i1) i2 w1)
      let ed2 := if ¬g.directed then edSet ed1 i2 (dinsert (edGet ed1 i2) i1 w1) else ed1
      ((ed2, warn), none)
  | _, _ => ((ed, false), some .unknownId)

/-- `add_edge` (`sparse.py` lines 191–225): validate the reduction mode
(`ValueError` otherwise, before any mutation), auto-create the two
identifiers, then `_add_edge` on the forward store. -/
def addEdge (g : SparseGraph) (id1 id2 : String) (w : PyFloat)
    (reduction : Option String) : (SparseGraph × Bool) × Option Err :=
  if reduction = none ∨ reduction = some "max" ∨ reduction = some "min" then
    match g.defaultAddId id1 with
    | (g1, some e) => ((g1, false), some e)
    | (g1, none) =>
      match g1.defaultAddId id2 with
      | (g2, some e) => ((g2, false), some e)
      | (g2, none) =>
        match g2.addEdgeRaw id1 id2 w reduction g2.edgeData with
        | ((ed, warn), err) => (({ g2 with edgeData := ed }, warn), err)
  else ((g, false), some .invalidArgument)

/-- The state after a successful-or-not `add_edge`, discarding the
warning flag and the error. -/
def addEdge1 (g : SparseGraph) (id1 id2 : String) (w : PyFloat)
    (reduction : Option String := none) : SparseGraph :=
  (g.addEdge id1 id2 w reduction).1.1

/-- `get_edge` (`sparse.py` lines 227–231):
`self.edge_data[self.idmap[node_id1]][self.idmap[node_id2]]` with
`except KeyError: return 0`.  The IDmap lookups go through
`idhandler.IDmap.__getitem__`, which raises `IDNotExistError` for an
identifier absent from the map (modelled from the spec: "always surfaced,
never swallowed" — `IDNotExistError` is not a `KeyError`, so the handler
does not catch it); the caught `KeyError` is the missing neighbour key in
the row dict, which yields 0. -/
def getEdge (g : SparseGraph) (id1 id2 : String) : Except Err PyFloat :=
  match g.idmap.lookup id1 with
  | none => .error .unknownId
  | some i1 =>
    match g.idmap.lookup id2 with
    | none => .error .unknownId
    | some i2 =>
      match alookup (edGet g.edgeData i1) i2 with
      | some w => .ok w
      | none => .ok zero

end SparseGraph

/-! ## Edge-list reader (`sparse.py` lines 233–255) -/

/-- Python `str.strip()` (ASCII whitespace, which is all that occurs). -/
def pyStrip (s : String) : String :=
  String.mk ((s.toList.dropWhile isPyWs).reverse.dropWhile isPyWs |>.reverse)

/-- Split a character list at every occurrence of `c` (the semantics of
Python `str.split(sep)` for a one-character separator, and of
`String.splitOn`, but by structural recursion). -/
def splitOnChar (c : Char) : List Char → List (List Char)
  | [] => [[]]
  | x :: rest =>
    match splitOnChar c rest with
    | [] => [[]]
    | h :: t => if x = c then [] :: h :: t else (x :: h) :: t

/-- `line.split(sep)` for a one-character separator. -/
def pySplit (s : String) (c : Char) : List String :=
  (splitOnChar c s.toList).map String.mk

/-- `for line in f`: split a file's text into lines, each keeping its
trailing newline, without a phantom empty final line. -/
def fileLinesGo : List String → List String
  | [] => []
  | [last] => if last = "" then [] else [last]
  | p :: rest => (p ++ "\n") :: fileLinesGo rest

def fileLines (s : String) : List String := fileLinesGo (pySplit s '\n')

/-- One line of `edglst_reader`: try to unpack three tab-separated fields
and parse the weight (skipping the line when the weight is at or below
`cut`, and discarding it for unweighted graphs); on `ValueError` fall back
to the two-field unweighted form with weight `float(1)`; any other shape
re-raises `ValueError` out of the generator. `none` = line skipped. -/
def edglstReadLine (line : String) (weighted : Bool) (cut : PyFloat) :
    Except Err (Option (String × String × PyFloat)) :=
  match pySplit line '\t' with
  | [a, b, ws] =>
    match pyFloatParse ws with
    | some w =>
      if w.ble cut then .ok none
      else .ok (some (pyStrip a, pyStrip b, if weighted then w else one))
    | none => .error .invalidArgument
  | [a, b] => .ok (some (pyStrip a, pyStrip b, one))
  | _ => .error .invalidArgument

/-- All triples yielded by `edglst_reader` (a malformed line aborts the
whole import with `ValueError`). -/
def edglstRead (lines : List String) (weighted : Bool) (cut : PyFloat) :
    Except Err (List (String × String × PyFloat)) :=
  match lines with
  | [] => .ok []
  | l :: rest =>
    match edglstReadLine l weighted cut with
    | .error e => .error e
    | .ok none => edglstRead rest weighted cut
    | .ok (some t) =>
      match edglstRead rest weighted cut with
      | .error e => .error e
      | .ok ts => .ok (t :: ts)

/-- `read` (`sparse.py` lines 286–305): `add_edge` every yielded triple
(default reduction), stopping at the state reached if one raises. -/
def readEdges : List (String × String × PyFloat) → SparseGraph → SparseGraph × Option Err
  | [], g => (g, none)
  | t :: rest, g =>
    match g.addEdge t.1 t.2.1 t.2.2 none with
    | ((g1, _), none) => readEdges rest g1
    | ((g1, _), some e) => (g1, some e)

/-- `from_edglst` (`sparse.py` lines 307–312): a fresh graph (default
`self_loops=False`) fed from the edge-list reader. -/
def fromEdglst (text : String) (weighted directed : Bool) (cut : PyFloat) :
    SparseGraph × Option Err :=
  let g := SparseGraph.mkEmpty weighted directed false
  match edglstRead (fileLines text) weighted cut with
  | .error e => (g, some e)
  | .ok ts => readEdges ts g

/-! ## `edge_gen` (`sparse.py` lines 607–617)

`edge_data_copy = self._edge_data[:]` is a SHALLOW copy: the outer list is
fresh but the per-node neighbour dicts are the graph's own, so
`edge_data_copy[dst_idx].pop(src_idx)` mutates the graph.  The model
threads the store and returns it next to the yielded triples so that this
mutation is observable.  (A self loop on an undirected graph would make
Python pop from the dict being iterated, a `RuntimeError`; no claim
exercises that, and the model iterates over the row as of arrival.) -/

/-- Pop `store[i][k]`; `none` models the `KeyError` of a missing key. -/
def popEntry (store : EdgeData) (i k : Nat) : Option EdgeData :=
  if (alookup (edGet store i) k).isSome then
    some (edSet store i (aerase (edGet store i) k))
  else none

/-- Inner loop of `edge_gen`: walk the (snapshot of the) row of `src`,
popping each mirrored entry when undirected, and yield the triples. -/
def edgeGenInner (directed : Bool) (lst : List String) (src : Nat) :
    List (Nat × PyFloat) → EdgeData →
    Except Err (List (String × String × PyFloat) × EdgeData)
  | [], store => .ok ([], store)
  | (dst, _) :: rest, store =>
    let popped : Option EdgeData :=
      if directed then some store else popEntry store dst src
    match popped with
    | none => .error .unknownId
    | some store1 =>
      match lst.get? src, lst.get? dst, alookup (edGet store1 src) dst with
      | some srcId, some dstId, some w =>
        match edgeGenInner directed lst src rest store1 with
        | .ok (ys, store2) => .ok ((srcId, dstId, w) :: ys, store2)
        | .error e => .error e
      | _, _, _ => .error .unknownId

/-- Outer loop of `edge_gen` over `range(len(edge_data_copy))`. -/
def edgeGenOuter (directed : Bool) (lst : List String) :
    Nat → Nat → EdgeData →
    Except Err (List (String × String × PyFloat) × EdgeData)
  | 0, _, store => .ok ([], store)
  | n + 1, src, store =>
    match edgeGenInner directed lst src (edGet store src) store with
    | .error e => .error e
    | .ok (ys, store1) =>
      match edgeGenOuter directed lst n (src + 1) store1 with
      | .error e => .error e
      | .ok (ys2, store2) => .ok (ys ++ ys2, store2)

/-- Exhaust `edge_gen`: the yielded triples and the adjacency store the
graph is left with. -/
def edgeGen (g : SparseGraph) :
    Except Err (List (String × String × PyFloat) × EdgeData) :=
  edgeGenOuter g.directed g.idmap.lst g.edgeData.length 0 g.edgeData

/-! ## Archive (npz) round trip (`sparse.py` lines 509–553 and 572–605)

The three arrays persisted by `save_npz` are modelled as plain lists; the
`uint32`/`float32` casts are not modelled (node counts in the repository
fit `uint32`, and the claim allows floating-point tolerance, which exact
arithmetic satisfies). -/

structure NpzData where
  nodeIds : List String
  edgeIndex : List (Nat × Nat)
  edgeWeight : Option (List PyFloat)
  deriving DecidableEq, Repr

/-- Row-major enumeration of the adjacency store's entries, exactly the
double loop of `save_npz` (`i` is the row index). -/
def flattenFrom : Nat → EdgeData → List ((Nat × Nat) × PyFloat)
  | _, [] => []
  | i, row :: rest => row.map (fun q => ((i, q.1), q.2)) ++ flattenFrom (i + 1) rest

def flattenStore (ed : EdgeData) : List ((Nat × Nat) × PyFloat) := flattenFrom 0 ed

/-- `save_npz`: node identifiers in order, one edge-index column per
stored entry, and the weights when `weighted` is set. -/
def saveNpz (g : SparseGraph) (weighted : Bool) : NpzData :=
  let es := flattenStore g.edgeData
  ⟨g.idmap.lst, es.map Prod.fst, if weighted then some (es.map Prod.snd) else none⟩

/-- `self._edge_data[i][j] = w` over a list of `((i, j), w)`. -/
def rebuildStore (base : EdgeData) (es : List ((Nat × Nat) × PyFloat)) : EdgeData :=
  es.foldl (fun st e => edSet st e.1.1 (dinsert (edGet st e.1.1) e.1.2 e.2)) base

/-- `read_npz` on a graph `g`: reconstruct the IDmap from the identifier
array and the store by zipping edge-index columns with the weights (all
`1.0` when the graph is unweighted).  A `weighted` graph reading a file
without an `edge_weight` array hits a `KeyError` after the IDmap and the
empty rows are already assigned. -/
def readNpz (g : SparseGraph) (d : NpzData) : SparseGraph × Option Err :=
  match IDmap.fromList d.nodeIds with
  | (_, some e) => (g, some e)
  | (m, none) =>
    let base : EdgeData := List.replicate d.nodeIds.length []
    if g.weighted then
      match d.edgeWeight with
      | some ws =>
        ({ g with idmap := m, edgeData := rebuildStore base (d.edgeIndex.zip ws) }, none)
      | none => ({ g with idmap := m, edgeData := base }, some .unknownId)
    else
      ({ g with idmap := m
              , edgeData := rebuildStore base (d.edgeIndex.map fun p => (p, one)) }, none)

/-- `from_npz`: a fresh graph with the requested flags, fed by `read_npz`. -/
def fromNpz (d : NpzData) (weighted directed : Bool) : SparseGraph × Option Err :=
  readNpz (SparseGraph.mkEmpty weighted directed false) d

/-! ## `induced_subgraph` (`sparse.py` lines 80–109) -/

/-- First pass: check every requested node is in the source graph
(`IDNotExistError` otherwise) and `add_id` it on the new graph. -/
def inducedAddIds (src : SparseGraph) :
    List String → SparseGraph → SparseGraph × Option Err
  | [], t => (t, none)
  | s :: rest, t =>
    if ¬src.idmap.mem s then (t, some .unknownId)
    else
      match t.addId s with
      | (t1, some e) => (t1, some e)
      | (t1, none) => inducedAddIds src rest t1

/-- Second pass, as a list of the `add_edge` calls the double loop makes:
for each requested `node1` in order, each stored neighbour whose
identifier is again in the requested set.  (The `none` fallbacks mark the
`IDNotExistError`/`IndexError` paths that cannot fire after the first
pass succeeded on a well-formed source.) -/
def inducedPairs (src : SparseGraph) (ids : List String) :
    List (String × String × PyFloat) :=
  ids.flatMap fun a =>
    match src.idmap.lookup a with
    | none => []
    | some ia =>
      (edGet src.edgeData ia).filterMap fun q =>
        match src.idmap.lst.get? q.1 with
        | none => none
        | some b => if b ∈ ids then some (a, b, q.2) else none

/-- `induced_subgraph`: a fresh graph with the source's flags, the
requested identifiers, and the edges among them. -/
def inducedSubgraph (src : SparseGraph) (ids : List String) :
    SparseGraph × Option Err :=
  let t0 := SparseGraph.mkEmpty src.weighted src.directed src.selfLoops
  match inducedAddIds src ids t0 with
  | (t1, some e) => (t1, some e)
  | (t1, none) => readEdges (inducedPairs src ids) t1

/-! ## DirectedSparseGraph (`sparse.py` lines 688–743) -/

structure DirGraph where
  idmap : IDmap
  edgeData : EdgeData
  revEdgeData : EdgeData
  weighted : Bool
  deriving DecidableEq, Repr

namespace DirGraph

/-- `DirectedSparseGraph(weighted=...)`: directed, no self loops. -/
def empty (weighted : Bool := true) : DirGraph := ⟨IDmap.empty, [], [], weighted⟩

/-- The `SparseGraph` view (`directed=True`, `self_loops=False` are fixed
by `DirectedSparseGraph.__init__`). -/
def toSparse (d : DirGraph) : SparseGraph := ⟨d.idmap, d.edgeData, d.weighted, true, false⟩

/-- Overridden `add_id` (lines 716–724): append a fresh row to BOTH the
forward and the reversed store, in lockstep with the IDmap. -/
def addId (d : DirGraph) (s : String) : DirGraph × Option Err :=
  match d.idmap.addID s with
  | ((m, _), some e) => ({ d with idmap := m }, some e)
  | ((m, _), none) =>
    (⟨m, d.edgeData ++ [[]], d.revEdgeData ++ [[]], d.weighted⟩, none)

def defaultAddId (d : DirGraph) (s : String) : DirGraph × Option Err :=
  if d.idmap.mem s then (d, none) else d.addId s

/-- Overridden `add_edge` (lines 726–742): `super().add_edge` (validation,
auto-create, forward store), then `_add_edge` with swapped endpoints on
the reversed store. -/
def addEdge (d : DirGraph) (a b : String) (w : PyFloat) (red : Option String) :
    (DirGraph × Bool) × Option Err :=
  if red = none ∨ red = some "max" ∨ red = some "min" then
    match d.defaultAddId a with
    | (d1, some e) => ((d1, false), some e)
    | (d1, none) =>
      match d1.defaultAddId b with
      | (d2, some e) => ((d2, false), some e)
      | (d2, none) =>
        match d2.toSparse.addEdgeRaw a b w red d2.edgeData with
        | ((ed, warn), some e) => (({ d2 with edgeData := ed }, warn), some e)
        | ((ed, warn1), none) =>
          let d3 := { d2 with edgeData := ed }
          match d3.toSparse.addEdgeRaw b a w red d3.revEdgeData with
          | ((rev, warn2), err) =>
            (({ d3 with revEdgeData := rev }, warn1 || warn2), err)
  else ((d, false), some .invalidArgument)

end DirGraph

/-- A mutation of a `DirectedSparseGraph`, for quantifying over every
sequence of `add_id`/`add_edge` operations. -/
inductive DOp where
  | addId (s : String)
  | addEdge (a b : String) (w : PyFloat) (red : Option String)
  deriving DecidableEq, Repr

/-- Apply one operation (state and error). -/
def DOp.apply (d : DirGraph) : DOp → DirGraph × Option Err
  | .addId s => d.addId s
  | .addEdge a b w red =>
    match d.addEdge a b w red with
    | ((d1, _), err) => (d1, err)

/-- Run a sequence of operations; an exception stops the run at the state
it was raised in. -/
def runDOps : List DOp → DirGraph → DirGraph
  | [], d => d
  | op :: rest, d =>
    match op.apply d with
    | (d1, none) => runDOps rest d1
    | (d1, some _) => d1

/-! ## Well-formedness

The structural invariants every IDmap and graph reachable through the
engine's constructors satisfies (spec §3): the dict is exactly the
index-of map of the ordered identifier list, identifiers are unique and
canonical-fixed, one adjacency row per node holding in-range unique
neighbour keys, mirrored rows when undirected, no self loops unless
enabled.  All components are decidable, so `decide` can establish `WF`
for the concrete witness graphs. -/

/-- `[(l[0], off), (l[1], off+1), ...]`: the identifier-to-index dict of
an identifier list. -/
def enumDataFrom : Nat → List String → List (String × Nat)
  | _, [] => []
  | off, s :: rest => (s, off) :: enumDataFrom (off + 1) rest

def enumData (lst : List String) : List (String × Nat) := enumDataFrom 0 lst

@[reducible] def IDmap.WF (m : IDmap) : Prop := m.data = enumData m.lst ∧ m.lst.Nodup

@[reducible] def SparseGraph.WF (g : SparseGraph) : Prop :=
  g.idmap.data = enumData g.idmap.lst
  ∧ g.idmap.lst.Nodup
  ∧ (∀ s ∈ g.idmap.lst, canonId s = s)
  ∧ g.edgeData.length = g.idmap.lst.length
  ∧ (∀ row ∈ g.edgeData, (akeys row).Nodup)
  ∧ (∀ row ∈ g.edgeData, ∀ p ∈ row, p.1 < g.idmap.lst.length)
  ∧ (g.directed = false →
      ∀ i, i < g.edgeData.length →
        ∀ p ∈ edGet g.edgeData i, alookup (edGet g.edgeData p.1) i = some p.2)
  ∧ (g.selfLoops = false →
      ∀ i, i < g.edgeData.length → alookup (edGet g.edgeData i) i = none)

/-- The reachable-state invariant of a `DirectedSparseGraph`: consistent
IDmap, one forward and one reversed row per node, and the reversed store
mirroring the forward store exactly. -/
def DirGraph.Inv (d : DirGraph) : Prop :=
  d.idmap.data = enumData d.idmap.lst
  ∧ d.edgeData.length = d.idmap.lst.length
  ∧ d.revEdgeData.length = d.idmap.lst.length
  ∧ ∀ i j w, alookup (edGet d.edgeData i) j = some w ↔
      alookup (edGet d.revEdgeData j) i = some w

/-- "The source graph stores the edge between the identifiers at
positions `ia` and `ib` of the requested list, with weight `w`" — the
right-hand side of the induced-subgraph correspondence. -/
def SRel (g : SparseGraph) (ids : List String) (ia ib : Nat) (w : PyFloat) : Prop :=
  ∃ sa sb i j, ids[ia]? = some sa ∧ ids[ib]? = some sb
    ∧ g.idmap.lookup sa = some i ∧ g.idmap.lookup sb = some j
    ∧ alookup (edGet g.edgeData i) j = some w

/-! ## Dictionary and store lemmas -/

theorem alookup_dinsert_self {κ α : Type} [DecidableEq κ] (m : List (κ × α)) (k : κ) (v : α) :
    alookup (dinsert m k v) k = some v := by
  induction m with
  | nil => simp [dinsert, alookup]
  | cons p rest ih =>
    by_cases h : p.1 = k
    · simp [dinsert, h, alookup]
    · simp [dinsert, h, alookup, ih]

theorem alookup_dinsert_ne {κ α : Type} [DecidableEq κ] (m : List (κ × α)) (k k' : κ) (v : α)
    (h : k' ≠ k) : alookup (dinsert m k v) k' = alookup m k' := by
  induction m with
  | nil => simp [dinsert, alookup, Ne.symm h]
  | cons p rest ih =>
    by_cases hp : p.1 = k
    · subst hp
      simp [dinsert, alookup, Ne.symm h]
    · by_cases hp' : p.1 = k'
      · simp [dinsert, hp, alookup, hp', h]
      · simp [dinsert, hp, alookup, hp', ih]

theorem alookup_mem {κ α : Type} [DecidableEq κ] {m : List (κ × α)} {k : κ} {v : α}
    (h : alookup m k = some v) : (k, v) ∈ m := by
  induction m with
  | nil => simp [alookup] at h
  | cons p rest ih =>
    obtain ⟨p1, p2⟩ := p
    by_cases hp : p1 = k
    · subst hp
      simp [alookup] at h
      subst h
      exact List.mem_cons_self _ _
    · simp [alookup, hp] at h
      exact List.mem_cons_of_mem _ (ih h)

theorem alookup_none_of_not_mem {κ α : Type} [DecidableEq κ] {m : List (κ × α)} {k : κ}
    (h : k ∉ akeys m) : alookup m k = none := by
  induction m with
  | nil => simp [alookup]
  | cons p rest ih =>
    simp only [akeys, List.map_cons, List.mem_cons, not_or] at h
    have hp : p.1 ≠ k := fun hh => h.1 hh.symm
    rw [alookup, if_neg hp]
    exact ih (by simpa [akeys] using h.2)

theorem dinsert_fresh {κ α : Type} [DecidableEq κ] {m : List (κ × α)} {k : κ} (v : α)
    (h : k ∉ akeys m) : dinsert m k v = m ++ [(k, v)] := by
  induction m with
  | nil => simp [dinsert]
  | cons p rest ih =>
    simp [akeys] at h
    have hp : p.1 ≠ k := fun hh => h.1 hh.symm
    simp [dinsert, hp, ih (by simp [akeys, h.2])]

theorem dinsert_append_left {κ α : Type} [DecidableEq κ] {pre m : List (κ × α)} {k : κ} (v : α)
    (h : k ∉ akeys pre) : dinsert (pre ++ m) k v = pre ++ dinsert m k v := by
  induction pre with
  | nil => simp
  | cons p rest ih =>
    simp [akeys] at h
    have hp : p.1 ≠ k := fun hh => h.1 hh.symm
    simp [dinsert, hp, ih (by simp [akeys, h.2])]

theorem aerase_append {κ α : Type} [DecidableEq κ] {pre rest : List (κ × α)} {k : κ} (v : α)
    (h : k ∉ akeys pre) : aerase (pre ++ (k, v) :: rest) k = pre ++ rest := by
  induction pre with
  | nil => simp [aerase]
  | cons p pr ih =>
    simp [akeys] at h
    have hp : p.1 ≠ k := fun hh => h.1 hh.symm
    simp [aerase, hp, ih (by simp [akeys, h.2])]

/-! ### `enumData` lemmas -/

theorem enumDataFrom_append (off : Nat) (a b : List String) :
    enumDataFrom off (a ++ b) = enumDataFrom off a ++ enumDataFrom (off + a.length) b := by
  induction a generalizing off with
  | nil => simp [enumDataFrom]
  | cons s rest ih =>
    simp [enumDataFrom, ih (off + 1)]
    have : off + 1 + rest.length = off + (rest.length + 1) := by omega
    rw [this]

theorem length_enumDataFrom (off : Nat) (l : List String) :
    (enumDataFrom off l).length = l.length := by
  induction l generalizing off with
  | nil => rfl
  | cons s rest ih => simp [enumDataFrom, ih]

theorem akeys_enumDataFrom (off : Nat) (l : List String) :
    akeys (enumDataFrom off l) = l := by
  induction l generalizing off with
  | nil => rfl
  | cons s rest ih => simp [enumDataFrom, akeys] at ih ⊢; exact ih _

theorem alookup_enumDataFrom_of_not_mem {l : List String} {s : String} (off : Nat)
    (h : s ∉ l) : alookup (enumDataFrom off l) s = none := by
  apply alookup_none_of_not_mem
  rw [akeys_enumDataFrom]
  exact h

theorem alookup_enumDataFrom_get {l : List String} {s : String} {j : Nat} (off : Nat)
    (hnd : l.Nodup) (hj : l[j]? = some s) :
    alookup (enumDataFrom off l) s = some (off + j) := by
  induction l generalizing off j with
  | nil => simp at hj
  | cons x rest ih =>
    cases j with
    | zero =>
      rw [List.getElem?_cons_zero] at hj
      injection hj with hj
      subst hj
      simp [enumDataFrom, alookup]
    | succ j' =>
      rw [List.getElem?_cons_succ] at hj
      have hx : x ≠ s := by
        intro hh
        subst hh
        exact (List.nodup_cons.mp hnd).1 (List.getElem?_mem hj)
      have hrec := ih (off + 1) (List.nodup_cons.mp hnd).2 hj
      simp [enumDataFrom, alookup, hx, hrec]
      try omega

theorem alookup_enumDataFrom_decomp {l : List String} {s : String} {i : Nat} {off : Nat}
    (h : alookup (enumDataFrom off l) s = some i) :
    ∃ l1 l2, l = l1 ++ s :: l2 ∧ s ∉ l1 ∧ i = off + l1.length := by
  induction l generalizing off with
  | nil => simp [enumDataFrom, alookup] at h
  | cons x rest ih =>
    by_cases hx : x = s
    · subst hx
      simp [enumDataFrom, alookup] at h
      refine ⟨[], rest, rfl, by simp, ?_⟩
      simp
      omega
    · simp [enumDataFrom, alookup, hx] at h
      obtain ⟨l1, l2, h1, h2, h3⟩ := ih h
      refine ⟨x :: l1, l2, by simp [h1], ?_, ?_⟩
      · simp only [List.mem_cons, not_or]
        exact ⟨fun hh => hx hh.symm, h2⟩
      · simp [h3]
        omega

theorem alookup_enumDataFrom_bound {l : List String} {s : String} {i : Nat} {off : Nat}
    (h : alookup (enumDataFrom off l) s = some i) : off ≤ i ∧ i - off < l.length := by
  obtain ⟨l1, l2, h1, _, h3⟩ := alookup_enumDataFrom_decomp h
  subst h1 h3
  simp
  try omega

theorem mem_of_alookup_enumDataFrom {l : List String} {s : String} {i : Nat} {off : Nat}
    (h : alookup (enumDataFrom off l) s = some i) : s ∈ l := by
  obtain ⟨l1, l2, h1, _, _⟩ := alookup_enumDataFrom_decomp h
  subst h1
  simp

theorem alookup_append_of_none {κ α : Type} [DecidableEq κ] {m1 : List (κ × α)}
    (m2 : List (κ × α)) {k : κ} (h : alookup m1 k = none) :
    alookup (m1 ++ m2) k = alookup m2 k := by
  induction m1 with
  | nil => simp
  | cons p rest ih =>
    by_cases hp : p.1 = k
    · rw [alookup, if_pos hp] at h
      exact Option.noConfusion h
    · rw [alookup, if_neg hp] at h
      rw [List.cons_append, alookup, if_neg hp]
      exact ih h

theorem alookup_enumDataFrom_isSome_of_mem {l : List String} {s : String} (off : Nat)
    (h : s ∈ l) : (alookup (enumDataFrom off l) s).isSome = true := by
  induction l generalizing off with
  | nil => simp at h
  | cons x rest ih =>
    by_cases hx : x = s
    · simp [enumDataFrom, alookup, hx]
    · rcases List.mem_cons.mp h with h1 | h1
      · exact absurd h1.symm hx
      · simp [enumDataFrom, alookup, hx]
        exact ih (off + 1) h1

/-! ### `edGet` / `edSet` lemmas -/

theorem edGet_edSet_self {ed : EdgeData} {i : Nat} (r : NbrMap) (h : i < ed.length) :
    edGet (edSet ed i r) i = r := by
  simp [edGet, edSet, List.getD, List.getElem?_set_self h]

theorem edGet_edSet_ne (ed : EdgeData) (i j : Nat) (r : NbrMap) (h : j ≠ i) :
    edGet (edSet ed i r) j = edGet ed j := by
  simp [edGet, edSet, List.getD, List.getElem?_set_ne (Ne.symm h)]

theorem length_edSet (ed : EdgeData) (i : Nat) (r : NbrMap) :
    (edSet ed i r).length = ed.length := by
  simp [edSet]

theorem edGet_append_nil (ed : EdgeData) (i : Nat) :
    edGet (ed ++ [[]]) i = edGet ed i := by
  rcases Nat.lt_trichotomy i ed.length with h | h | h
  · simp [edGet, List.getD, List.getElem?_append_left h]
  · subst h
    have h1 : ed.length ≤ ed.length := Nat.le_refl _
    have h2 : ([[]] : EdgeData)[ed.length - ed.length]? = some [] := by simp
    simp [edGet, List.getD, List.getElem?_append_right h1, h2,
      List.getElem?_eq_none h1]
  · have h1 : ed.length ≤ i := Nat.le_of_lt h
    have h2 : (ed ++ [[]]).length ≤ i := by
      simp
      omega
    simp [edGet, List.getD, List.getElem?_eq_none h2, List.getElem?_eq_none h1]

theorem edGet_replicate (n i : Nat) : edGet (List.replicate n ([] : NbrMap)) i = [] := by
  rcases Nat.lt_or_ge i n with h | h
  · simp [edGet, List.getD, List.getElem?_replicate, h]
  · have h2 : (List.replicate n ([] : NbrMap)).length ≤ i := by
      simpa using h
    simp [edGet, List.getD, List.getElem?_eq_none h2]

theorem edGet_pos {ed : EdgeData} {i : Nat} (h : edGet ed i ≠ []) : i < ed.length := by
  by_contra hc
  exact h (by simp [edGet, List.getD, List.getElem?_eq_none (Nat.le_of_not_lt hc)])

theorem edSet_edSet (ed : EdgeData) (i : Nat) (r r' : NbrMap) :
    edSet (edSet ed i r) i r' = edSet ed i r' := by
  simp [edSet, List.set_set]

/-! ### `PyFloat` lemmas -/

theorem PyFloat.beq_refl (x : PyFloat) : x.beq x = true := by
  simp [PyFloat.beq]

theorem PyFloat.beq_symm {x y : PyFloat} (h : x.beq y = true) : y.beq x = true := by
  simp [PyFloat.beq] at h ⊢
  omega

theorem PyFloat.pymax_beq_right {x y : PyFloat} (h : x.beq y = true) :
    (x.pymax y).beq y = true := by
  simp [PyFloat.beq] at h
  simp [PyFloat.pymax, PyFloat.blt]
  split <;> simp [PyFloat.beq] <;> omega

theorem PyFloat.pymin_beq_right {x y : PyFloat} (h : x.beq y = true) :
    (x.pymin y).beq y = true := by
  simp [PyFloat.beq] at h
  simp [PyFloat.pymin, PyFloat.ble]
  split <;> simp [PyFloat.beq] <;> omega

/-! ### Characterizations of the graph mutations -/

theorem defaultAddId_of_mem (g : SparseGraph) (s : String) (h : g.idmap.mem s = true) :
    g.defaultAddId s = (g, none) := by
  simp [SparseGraph.defaultAddId, h]

/-- `add_edge` with both identifiers present and the self-loop skip not
taken: the committed weight, the mirror write, the warning flag. -/
theorem addEdge_write (g : SparseGraph) (a b : String) (w : PyFloat) (red : Option String)
    (ia ib : Nat)
    (hred : red = none ∨ red = some "max" ∨ red = some "min")
    (ha : g.idmap.lookup a = some ia) (hb : g.idmap.lookup b = some ib)
    (hskip : ¬(¬g.selfLoops ∧ ia = ib)) :
    g.addEdge a b w red =
      (let row := edGet g.edgeData ia
      let old := alookup row ib
      let warn : Bool :=
        match old with
        | some ow => !ow.beq w && red.isNone
        | none => false
      let w1 :=
        match old with
        | some ow =>
          if ¬ow.beq w then
            match red with
            | some r => if r = "max" then ow.pymax w else if r = "min" then ow.pymin w else w
            | none => w
          else w
        | none => w
      let ed1 := edSet g.edgeData ia (dinsert row ib w1)
      let ed2 := if ¬g.directed then edSet ed1 ib (dinsert (edGet ed1 ib) ia w1) else ed1
      (({ g with edgeData := ed2 }, warn), none)) := by
  have hma : g.idmap.mem a = true := by simp [IDmap.mem, IDmap.lookup] at ha ⊢; simp [ha]
  have hmb : g.idmap.mem b = true := by simp [IDmap.mem, IDmap.lookup] at hb ⊢; simp [hb]
  rw [SparseGraph.addEdge, if_pos hred, defaultAddId_of_mem g a hma]
  dsimp only
  rw [defaultAddId_of_mem g b hmb]
  dsimp only
  rw [SparseGraph.addEdgeRaw, ha, hb]
  dsimp only
  rw [if_neg hskip]
  cases red <;> rfl

/-- `add_edge` on a disabled self loop: a silent no-op. -/
theorem addEdge_skip (g : SparseGraph) (a b : String) (w : PyFloat) (red : Option String)
    (ia : Nat)
    (hred : red = none ∨ red = some "max" ∨ red = some "min")
    (ha : g.idmap.lookup a = some ia) (hb : g.idmap.lookup b = some ia)
    (hloop : g.selfLoops = false) :
    g.addEdge a b w red = ((g, false), none) := by
  have hma : g.idmap.mem a = true := by simp [IDmap.mem, IDmap.lookup] at ha ⊢; simp [ha]
  have hmb : g.idmap.mem b = true := by simp [IDmap.mem, IDmap.lookup] at hb ⊢; simp [hb]
  rw [SparseGraph.addEdge, if_pos hred, defaultAddId_of_mem g a hma]
  dsimp only
  rw [defaultAddId_of_mem g b hmb]
  dsimp only
  rw [SparseGraph.addEdgeRaw, ha, hb]
  dsimp only
  rw [if_pos (by simp [hloop])]

/-- The committed cell after the (possibly mirrored) write of `_add_edge`. -/
theorem alookup_mirror_write (ed : EdgeData) (ia ib : Nat) (w1 : PyFloat) (directed : Bool)
    (hia : ia < ed.length) :
    alookup (edGet (if ¬directed = true then
        edSet (edSet ed ia (dinsert (edGet ed ia) ib w1)) ib
          (dinsert (edGet (edSet ed ia (dinsert (edGet ed ia) ib w1)) ib) ia w1)
      else edSet ed ia (dinsert (edGet ed ia) ib w1)) ia) ib = some w1 := by
  cases directed with
  | true =>
    rw [if_neg (by simp)]
    rw [edGet_edSet_self _ hia, alookup_dinsert_self]
  | false =>
    rw [if_pos (by simp)]
    by_cases hab : ib = ia
    · subst hab
      have hia1 : ib < (edSet ed ib (dinsert (edGet ed ib) ib w1)).length := by
        rw [length_edSet]; exact hia
      rw [edGet_edSet_self _ hia1, alookup_dinsert_self]
    · rw [edGet_edSet_ne _ ib ia _ (fun hh => hab hh.symm)]
      rw [edGet_edSet_self _ hia, alookup_dinsert_self]

/-- `get_edge(a, b)` right after `add_edge(a, b, w, red)`: the reduced
weight is read back. -/
theorem getEdge_addEdge (g : SparseGraph) (a b : String) (w : PyFloat) (red : Option String)
    (ia ib : Nat)
    (hred : red = none ∨ red = some "max" ∨ red = some "min")
    (ha : g.idmap.lookup a = some ia) (hb : g.idmap.lookup b = some ib)
    (hskip : ¬(¬g.selfLoops ∧ ia = ib)) (hia : ia < g.edgeData.length) :
    (g.addEdge a b w red).1.1.getEdge a b =
      .ok (match alookup (edGet g.edgeData ia) ib with
        | some ow =>
          if ¬ow.beq w then
            match red with
            | some r => if r = "max" then ow.pymax w else if r = "min" then ow.pymin w else w
            | none => w
          else w
        | none => w) := by
  rw [addEdge_write g a b w red ia ib hred ha hb hskip]
  dsimp only
  rw [SparseGraph.getEdge]
  dsimp only
  rw [ha, hb]
  dsimp only
  rw [alookup_mirror_write g.edgeData ia ib _ g.directed hia]

/-! ## Claim theorems -/

/-- C2: on an existing edge of weight `w_old`, a subsequent
`add_edge(a, b, w_new)` stores `max(w_old, w_new)` under
`reduction="max"`, `min(w_old, w_new)` under `reduction="min"`, and
`w_new` (last-writer-wins) with a recoverable warning and no error under
`reduction=None`; the warning fires exactly when the weights differ. -/
theorem addEdge_reduction_spec (g : SparseGraph) (a b : String) (wold w : PyFloat)
    (ia ib : Nat) (hWF : g.WF)
    (ha : g.idmap.lookup a = some ia) (hb : g.idmap.lookup b = some ib)
    (he : alookup (edGet g.edgeData ia) ib = some wold) :
    exBeq ((g.addEdge a b w (some "max")).1.1.getEdge a b) (wold.pymax w) = true
    ∧ exBeq ((g.addEdge a b w (some "min")).1.1.getEdge a b) (wold.pymin w) = true
    ∧ exBeq ((g.addEdge a b w none).1.1.getEdge a b) w = true
    ∧ (g.addEdge a b w none).2 = none
    ∧ (g.addEdge a b w none).1.2 = !wold.beq w := by
  obtain ⟨hdata, hnodup, hcanon, hrows, hknd, hkb, hsym, hnl⟩ := hWF
  have hrow_ne : edGet g.edgeData ia ≠ [] := by
    intro hh
    rw [hh] at he
    simp [alookup] at he
  have hia : ia < g.edgeData.length := edGet_pos hrow_ne
  have hskip : ¬(¬g.selfLoops ∧ ia = ib) := by
    rintro ⟨hsl, hEq⟩
    subst hEq
    have hslf : g.selfLoops = false := by
      revert hsl
      cases g.selfLoops <;> simp
    have h0 := hnl hslf ia hia
    rw [h0] at he
    exact Option.noConfusion he
  have hmax := getEdge_addEdge g a b w (some "max") ia ib (by simp) ha hb hskip hia
  have hmin := getEdge_addEdge g a b w (some "min") ia ib (by simp) ha hb hskip hia
  have hnone := getEdge_addEdge g a b w none ia ib (by simp) ha hb hskip hia
  rw [he] at hmax hmin hnone
  simp at hmax hmin hnone
  refine ⟨?_, ?_, ?_, ?_, ?_⟩
  · rw [hmax]
    simp only [exBeq]
    split
    all_goals
      first
      | exact PyFloat.beq_refl _
      | (rename_i hbq
         have hb2 : wold.beq w = true := by
           revert hbq
           cases wold.beq w <;> simp
         exact PyFloat.beq_symm (PyFloat.pymax_beq_right hb2))
  · rw [hmin]
    simp only [exBeq]
    split
    all_goals
      first
      | exact PyFloat.beq_refl _
      | (rename_i hbq
         have hb2 : wold.beq w = true := by
           revert hbq
           cases wold.beq w <;> simp
         exact PyFloat.beq_symm (PyFloat.pymin_beq_right hb2))
  · rw [hnone]
    simp only [exBeq]
    exact PyFloat.beq_refl _
  · rw [addEdge_write g a b w none ia ib (by simp) ha hb hskip]
  · rw [addEdge_write g a b w none ia ib (by simp) ha hb hskip]
    dsimp only
    rw [he]
    simp

/-- C1 (amended): reading the example edge-list text as a weighted
undirected graph with `cut_threshold=0` succeeds and yields `size() == 4`,
`num_edges() == 6` (the sum of the neighbor-map sizes counts each
undirected edge in both stored directions), `get_edge("1","3") == 0.4`
and `get_edge("2","1") == 1.0`. -/
theorem edglst_example_spec :
    (fromEdglst "1\t3\t0.4\n1\t2\t1\n3\t4\t0.1\n" true false zero).2 = none
    ∧ (fromEdglst "1\t3\t0.4\n1\t2\t1\n3\t4\t0.1\n" true false zero).1.size = 4
    ∧ (fromEdglst "1\t3\t0.4\n1\t2\t1\n3\t4\t0.1\n" true false zero).1.numEdges = 6
    ∧ exBeq ((fromEdglst "1\t3\t0.4\n1\t2\t1\n3\t4\t0.1\n" true false zero).1.getEdge
        "1" "3") ⟨2, 5⟩ = true
    ∧ exBeq ((fromEdglst "1\t3\t0.4\n1\t2\t1\n3\t4\t0.1\n" true false zero).1.getEdge
        "2" "1") one = true := by
  decide

/-- Counterexample to C1 as stated: `num_edges()` of the example graph is
not 3 (it is 6, because the undirected store keeps both mirrored entries
and `num_edges` sums all neighbor-map sizes). -/
theorem edglst_example_counterexample :
    ¬(fromEdglst "1\t3\t0.4\n1\t2\t1\n3\t4\t0.1\n" true false zero).1.numEdges = 3 := by
  decide

/-- C7 (amended): `addID` canonicalizes numeric identifier spellings
("1.0" and "1" denote the same node, non-numeric strings pass through),
fails with `DuplicateIdError` when the canonical identifier is already
present (leaving the map unchanged), and otherwise appends the canonical
identifier at the next index — but the method's return value is `None`,
not the new index. -/
theorem addID_spec :
    (canonId "1.0" = "1" ∧ canonId "1" = "1" ∧ canonId "abc" = "abc")
    ∧ (∀ (m : IDmap) (s : String), (alookup m.data (canonId s)).isSome = true →
        m.addID s = ((m, none), some .duplicateId))
    ∧ (∀ (m : IDmap) (s : String), m.WF → alookup m.data (canonId s) = none →
        m.addID s
          = ((⟨m.data ++ [(canonId s, m.lst.length)], m.lst ++ [canonId s]⟩, none), none)
        ∧ (m.addID s).1.1.lookup (canonId s) = some m.lst.length
        ∧ (m.addID s).1.2 = none
        ∧ (m.addID s).1.1.WF) := by
  refine ⟨by decide, ?_, ?_⟩
  · intro m s h
    simp [IDmap.addID, h]
  · intro m s hWF h
    obtain ⟨hdata, hnd⟩ := hWF
    have hsz : m.size = m.lst.length := by
      rw [IDmap.size, hdata, enumData, length_enumDataFrom]
    have hmain : m.addID s
        = ((⟨m.data ++ [(canonId s, m.lst.length)], m.lst ++ [canonId s]⟩, none), none) := by
      rw [IDmap.addID]
      rw [if_neg (by simp [h])]
      rw [hsz]
    have hnotmem : canonId s ∉ m.lst := by
      intro hmem
      have := alookup_enumDataFrom_isSome_of_mem 0 hmem
      rw [← enumData, ← hdata, h] at this
      exact Bool.noConfusion this
    refine ⟨hmain, ?_, ?_, ?_⟩
    · rw [hmain]
      simp only [IDmap.lookup]
      rw [alookup_append_of_none _ h, alookup, if_pos rfl]
    · rw [hmain]
    · rw [hmain]
      constructor
      · show m.data ++ [(canonId s, m.lst.length)] = enumData (m.lst ++ [canonId s])
        rw [hdata, enumData, enumData, enumDataFrom_append]
        simp [enumDataFrom]
      · show (m.lst ++ [canonId s]).Nodup
        simp [List.nodup_append, hnd, hnotmem]

/-- Witness for C7: a duplicate through canonicalization ("1.0" after
"1") fails; a fresh identifier is appended at index 0 of the empty map. -/
theorem addID_spec_witness :
    (IDmap.addID1 IDmap.empty "1").addID "1.0"
      = ((IDmap.addID1 IDmap.empty "1", none), some .duplicateId)
    ∧ IDmap.addID IDmap.empty "x" = ((⟨[("x", 0)], ["x"]⟩, none), none) := by
  constructor
  · exact addID_spec.2.1 _ "1.0" (by decide)
  · exact ((addID_spec.2.2 IDmap.empty "x" (by decide) (by decide)).1).trans (by decide)

/-- Counterexample to C7 as stated: `addID` on the empty map appends "a"
at index 0 but returns `None` (the method body has no `return`
statement), not the new index 0. -/
theorem addID_counterexample :
    (IDmap.addID IDmap.empty "a").1.1.lst = ["a"]
    ∧ ¬(IDmap.addID IDmap.empty "a").1.2 = some 0 := by
  decide

/-- C10 (code bug): on the undirected graph with the single edge
`("a", "b", 1.0)`, exhausting `edge_gen` yields the logical edge exactly
once, but — because `edge_data_copy = self._edge_data[:]` is a shallow
copy whose inner dicts are shared with the graph — the `pop` of each
mirrored entry mutates the graph itself: the store is left with only one
direction per edge, and exhausting `edge_gen` a second time raises
`KeyError`. -/
theorem edgeGen_mutates :
    edgeGen (SparseGraph.addEdge1 (SparseGraph.mkEmpty true false false) "a" "b" one)
      = .ok ([("a", "b", one)], [[(1, one)], []])
    ∧ (SparseGraph.addEdge1 (SparseGraph.mkEmpty true false false) "a" "b" one).edgeData
      = [[(1, one)], [(0, one)]]
    ∧ ¬([[(1, one)], []] : EdgeData)
      = (SparseGraph.addEdge1 (SparseGraph.mkEmpty true false false) "a" "b" one).edgeData
    ∧ edgeGen { SparseGraph.addEdge1 (SparseGraph.mkEmpty true false false) "a" "b" one
        with edgeData := [[(1, one)], []] } = .error .unknownId := by
  refine ⟨?_, ?_, ?_, ?_⟩ <;> decide

/-- The reassignment loop of `pop` rewrites the stale tail indices in
place: with the erased entry gone, reindexing the tail of the dict from
`t` instead of `c` yields exactly the index-of dict of the new list. -/
theorem reindexFrom_eq (l2 : List String) (pre : List (String × Nat)) (c t : Nat)
    (hfresh : ∀ e ∈ l2, e ∉ akeys pre) (hnd : l2.Nodup) :
    IDmap.reindexFrom (pre ++ enumDataFrom c l2) t l2 = pre ++ enumDataFrom t l2 := by
  induction l2 generalizing pre c t with
  | nil => simp [IDmap.reindexFrom, enumDataFrom]
  | cons e rest ih =>
    have he : e ∉ akeys pre := hfresh e (List.mem_cons_self _ _)
    rw [show enumDataFrom c (e :: rest) = (e, c) :: enumDataFrom (c + 1) rest from rfl]
    rw [IDmap.reindexFrom, dinsert_append_left _ he]
    rw [show dinsert ((e, c) :: enumDataFrom (c + 1) rest) e t
      = (e, t) :: enumDataFrom (c + 1) rest by simp [dinsert]]
    rw [show pre ++ (e, t) :: enumDataFrom (c + 1) rest
      = (pre ++ [(e, t)]) ++ enumDataFrom (c + 1) rest by simp]
    rw [ih (pre ++ [(e, t)]) (c + 1) (t + 1) ?_ (List.nodup_cons.mp hnd).2]
    · simp [enumDataFrom]
    · intro x hx
      simp only [akeys, List.map_append, List.mem_append, not_or]
      refine ⟨hfresh x (List.mem_cons_of_mem _ hx), ?_⟩
      simp only [List.map_cons, List.map_nil, List.mem_singleton]
      intro hh
      exact (List.nodup_cons.mp hnd).1 (hh ▸ hx)

theorem eraseIdx_append_len {α : Type} (l1 l2 : List α) (x : α) :
    (l1 ++ x :: l2).eraseIdx l1.length = l1 ++ l2 := by
  induction l1 with
  | nil => simp [List.eraseIdx]
  | cons y rest ih => simp [List.eraseIdx, ih]

/-- `pop` on a present identifier computes to the canonical IDmap of the
list with that position erased. -/
theorem pop_eq (m : IDmap) (s : String) (idx : Nat) (hWF : m.WF)
    (h : alookup m.data s = some idx) :
    m.pop s = (⟨enumData (m.lst.eraseIdx idx), m.lst.eraseIdx idx⟩, none) := by
  obtain ⟨hdata, hnd⟩ := hWF
  have h' := h
  rw [hdata] at h'
  obtain ⟨l1, l2, hl, hnot, hidx⟩ := alookup_enumDataFrom_decomp h'
  have hidx' : idx = l1.length := by omega
  subst hidx'
  rw [IDmap.pop, h]
  dsimp only
  have hErase : m.lst.eraseIdx l1.length = l1 ++ l2 := by
    rw [hl]
    exact eraseIdx_append_len l1 l2 s
  have hDrop : (m.lst.eraseIdx l1.length).drop l1.length = l2 := by
    rw [hErase]
    exact List.drop_left l1 l2
  have hAerase : aerase m.data s = enumDataFrom 0 l1 ++ enumDataFrom (l1.length + 1) l2 := by
    rw [hdata, hl, enumData, enumDataFrom_append]
    rw [show enumDataFrom (0 + l1.length) (s :: l2)
      = (s, 0 + l1.length) :: enumDataFrom (0 + l1.length + 1) l2 from rfl]
    rw [aerase_append (0 + l1.length) (by rw [akeys_enumDataFrom]; exact hnot)]
    simp
  rw [hAerase, hDrop, hErase]
  rw [reindexFrom_eq l2 (enumDataFrom 0 l1) (l1.length + 1) l1.length ?h1 ?h2]
  case h1 =>
    intro x hx
    rw [akeys_enumDataFrom]
    rw [hl, List.nodup_append] at hnd
    intro hmem
    exact hnd.2.2 hmem (List.mem_cons_of_mem _ hx)
  case h2 =>
    rw [hl, List.nodup_append, List.nodup_cons] at hnd
    exact hnd.2.1.2
  rw [enumData, enumDataFrom_append]
  simp

/-- With no duplicates, the dict lookup and the positional read agree. -/
theorem alookup_enumData_iff {l : List String} (hnd : l.Nodup) (t : String) (j : Nat) :
    alookup (enumData l) t = some j ↔ l[j]? = some t := by
  constructor
  · intro h
    obtain ⟨l1, l2, hl, _, hj⟩ := alookup_enumDataFrom_decomp h
    subst hl
    have hj' : j = l1.length := by omega
    subst hj'
    rw [List.getElem?_append_right (Nat.le_refl _)]
    simp
  · intro h
    have := alookup_enumDataFrom_get (l := l) 0 hnd h
    simpa using this

/-- C8: `pop` fails with `UnknownIdError` (leaving the map unchanged)
when the identifier is absent; on success it removes the identifier and
shifts every index greater than the removed one down by one in both
directions of the mapping, so that `index_of[order[i]] == i` with
contiguous indices `[0, size)` holds again. -/
theorem pop_spec (m : IDmap) (s : String) :
    (m.lookup s = none → m.pop s = (m, some .unknownId))
    ∧ (∀ idx, m.WF → m.lookup s = some idx →
        (m.pop s).2 = none
        ∧ (m.pop s).1.lst = m.lst.eraseIdx idx
        ∧ (m.pop s).1.WF
        ∧ (m.pop s).1.size = m.size - 1
        ∧ (m.pop s).1.lookup s = none
        ∧ (∀ i, i < (m.pop s).1.lst.length →
            (m.pop s).1.lookup ((m.pop s).1.lst.getD i "") = some i)
        ∧ (∀ t j, t ≠ s → m.lookup t = some j →
            (m.pop s).1.lookup t = some (if idx < j then j - 1 else j))) := by
  constructor
  · intro h
    rw [IDmap.pop, IDmap.lookup] at *
    rw [h]
  · intro idx hWF hlk
    have hpop := pop_eq m s idx hWF hlk
    obtain ⟨hdata, hnd⟩ := hWF
    have h' := hlk
    rw [IDmap.lookup, hdata] at h'
    obtain ⟨l1, l2, hl, hnot, hidx⟩ := alookup_enumDataFrom_decomp h'
    have hidx' : idx = l1.length := by omega
    subst hidx'
    have hErase : m.lst.eraseIdx l1.length = l1 ++ l2 := by
      rw [hl]
      exact eraseIdx_append_len l1 l2 s
    have hnd' : (l1 ++ l2).Nodup := by
      rw [hl, List.nodup_append, List.nodup_cons] at hnd
      rw [List.nodup_append]
      exact ⟨hnd.1, hnd.2.1.2, fun x hx1 hx2 => hnd.2.2 hx1 (List.mem_cons_of_mem _ hx2)⟩
    have hsnot : s ∉ l1 ++ l2 := by
      rw [hl, List.nodup_append, List.nodup_cons] at hnd
      rw [List.mem_append]
      rintro (hc | hc)
      · exact hnot hc
      · exact hnd.2.1.1 hc
    refine ⟨by rw [hpop], by rw [hpop, hErase], ?_, ?_, ?_, ?_, ?_⟩
    · rw [hpop]
      exact ⟨rfl, by rw [hErase]; exact hnd'⟩
    · rw [hpop, IDmap.size, IDmap.size, hdata, enumData, enumData,
        length_enumDataFrom, length_enumDataFrom, hErase, hl]
      simp
    · rw [hpop, IDmap.lookup]
      exact alookup_enumDataFrom_of_not_mem 0 (hErase ▸ hsnot)
    · intro i hi
      rw [hpop] at hi ⊢
      dsimp only at hi ⊢
      have hget : (m.lst.eraseIdx l1.length)[i]? = some ((m.lst.eraseIdx l1.length).getD i "") := by
        rw [List.getD_eq_getElem?_getD, List.getElem?_eq_getElem hi]
        rfl
      rw [IDmap.lookup]
      have := alookup_enumDataFrom_get (l := m.lst.eraseIdx l1.length) 0 (hErase ▸ hnd') hget
      simpa using this
    · intro t j hts hj
      rw [IDmap.lookup, hdata] at hj
      have hjt : m.lst[j]? = some t := (alookup_enumData_iff hnd t j).mp hj
      rw [hpop, IDmap.lookup]
      dsimp only
      rw [hErase]
      rcases Nat.lt_trichotomy j l1.length with hlt | hEq | hgt
      · have ht1 : l1[j]? = some t := by
          rw [hl, List.getElem?_append_left hlt] at hjt
          exact hjt
        have hnew : (l1 ++ l2)[j]? = some t := by
          rw [List.getElem?_append_left hlt]
          exact ht1
        rw [(alookup_enumData_iff hnd' t j).mpr hnew]
        rw [if_neg (by omega)]
      · exfalso
        subst hEq
        rw [hl, List.getElem?_append_right (Nat.le_refl _)] at hjt
        simp at hjt
        exact hts hjt.symm
      · have ht2 : l2[j - l1.length - 1]? = some t := by
          rw [hl, List.getElem?_append_right (by omega)] at hjt
          rw [show j - l1.length = (j - l1.length - 1) + 1 by omega] at hjt
          simpa using hjt
        have hnew : (l1 ++ l2)[j - 1]? = some t := by
          rw [List.getElem?_append_right (by omega)]
          rw [show j - 1 - l1.length = j - l1.length - 1 by omega]
          exact ht2
        rw [(alookup_enumData_iff hnd' t (j - 1)).mpr hnew]
        rw [if_pos hgt]

/-- Witness for C8 on the four-identifier map `a b c d`, popping `b`. -/
theorem pop_spec_witness :
    ((((IDmap.empty.addID1 "a").addID1 "b").addID1 "c").addID1 "d").pop "x"
      = ((((IDmap.empty.addID1 "a").addID1 "b").addID1 "c").addID1 "d", some .unknownId)
    ∧ ((((IDmap.empty.addID1 "a").addID1 "b").addID1 "c").addID1 "d").pop "b"
      = (⟨[("a", 0), ("c", 1), ("d", 2)], ["a", "c", "d"]⟩, none) := by
  constructor
  · exact (pop_spec _ "x").1 (by decide)
  · have h := (pop_spec ((((IDmap.empty.addID1 "a").addID1 "b").addID1 "c").addID1 "d")
      "b").2 1 (by decide) (by decide)
    have h2 := pop_eq ((((IDmap.empty.addID1 "a").addID1 "b").addID1 "c").addID1 "d")
      "b" 1 (by decide) (by decide)
    refine h2.trans ?_
    have hok := h.1
    decide

theorem enumData_append_single (lst : List String) (c : String) :
    enumData lst ++ [(c, lst.length)] = enumData (lst ++ [c]) := by
  rw [enumData, enumData, enumDataFrom_append]
  simp [enumDataFrom]

theorem IDmap.addID_dup (m : IDmap) (s : String)
    (h : (alookup m.data (canonId s)).isSome = true) :
    m.addID s = ((m, none), some .duplicateId) := by
  simp [IDmap.addID, h]

theorem IDmap.addID_ok (m : IDmap) (s : String)
    (h : (alookup m.data (canonId s)).isSome = false) :
    m.addID s = ((⟨m.data ++ [(canonId s, m.size)], m.lst ++ [canonId s]⟩, none), none) := by
  rw [IDmap.addID, if_neg (by simp [h])]

theorem DirGraph.inv_empty (w : Bool) : (DirGraph.empty w).Inv := by
  refine ⟨rfl, rfl, rfl, ?_⟩
  intro i j wt
  simp [DirGraph.empty, edGet, List.getD, alookup]

theorem DirGraph.addId_inv (d : DirGraph) (s : String) (h : d.Inv) :
    (d.addId s).1.Inv := by
  obtain ⟨hdata, hfwd, hrev, hm⟩ := h
  by_cases hdup : (alookup d.idmap.data (canonId s)).isSome = true
  · rw [DirGraph.addId, IDmap.addID_dup d.idmap s hdup]
    exact ⟨hdata, hfwd, hrev, hm⟩
  · rw [DirGraph.addId, IDmap.addID_ok d.idmap s (by revert hdup; cases (alookup d.idmap.data (canonId s)).isSome <;> simp)]
    refine ⟨?_, ?_, ?_, ?_⟩
    · show d.idmap.data ++ [(canonId s, d.idmap.size)] = enumData (d.idmap.lst ++ [canonId s])
      rw [hdata, IDmap.size, hdata, enumData, length_enumDataFrom, ← enumData,
        enumData_append_single]
    · show (d.edgeData ++ [[]]).length = (d.idmap.lst ++ [canonId s]).length
      simp [hfwd]
    · show (d.revEdgeData ++ [[]]).length = (d.idmap.lst ++ [canonId s]).length
      simp [hrev]
    · intro i j wt
      show alookup (edGet (d.edgeData ++ [[]]) i) j = some wt ↔
        alookup (edGet (d.revEdgeData ++ [[]]) j) i = some wt
      rw [edGet_append_nil, edGet_append_nil]
      exact hm i j wt

theorem DirGraph.defaultAddId_inv (d : DirGraph) (s : String) (h : d.Inv) :
    (d.defaultAddId s).1.Inv := by
  by_cases hmem : d.idmap.mem s = true
  · rw [DirGraph.defaultAddId, if_pos hmem]
    exact h
  · rw [DirGraph.defaultAddId, if_neg hmem]
    exact DirGraph.addId_inv d s h

/-- Mirrored options: the forward and reversed cells agree as `Option`s. -/
theorem mirror_old_eq {fwd rev : EdgeData} (ia ib : Nat)
    (hm : ∀ i j w, alookup (edGet fwd i) j = some w ↔ alookup (edGet rev j) i = some w) :
    alookup (edGet fwd ia) ib = alookup (edGet rev ib) ia := by
  cases hof : alookup (edGet fwd ia) ib with
  | some w0 => rw [(hm ia ib w0).mp hof]
  | none =>
    cases hor : alookup (edGet rev ib) ia with
    | some w0 =>
      have := (hm ia ib w0).mpr hor
      rw [hof] at this
      exact Option.noConfusion this
    | none => rfl

/-- Writing the same value at `(ia, ib)` forward and `(ib, ia)` reversed
preserves the mirror property. -/
theorem mirror_update {fwd rev : EdgeData} (ia ib : Nat) (w1 : PyFloat)
    (hm : ∀ i j w, alookup (edGet fwd i) j = some w ↔ alookup (edGet rev j) i = some w)
    (hia : ia < fwd.length) (hib : ib < rev.length) :
    ∀ i j w,
      alookup (edGet (edSet fwd ia (dinsert (edGet fwd ia) ib w1)) i) j = some w ↔
      alookup (edGet (edSet rev ib (dinsert (edGet rev ib) ia w1)) j) i = some w := by
  intro i j w
  by_cases hi : i = ia
  · subst hi
    by_cases hj : j = ib
    · subst hj
      rw [edGet_edSet_self _ hia, alookup_dinsert_self,
        edGet_edSet_self _ hib, alookup_dinsert_self]
    · rw [edGet_edSet_self _ hia, alookup_dinsert_ne _ _ _ _ hj,
        edGet_edSet_ne _ _ _ _ hj]
      exact hm i j w
  · by_cases hj : j = ib
    · subst hj
      rw [edGet_edSet_ne _ _ _ _ hi, edGet_edSet_self _ hib,
        alookup_dinsert_ne _ _ _ _ hi]
      exact hm i j w
    · rw [edGet_edSet_ne _ _ _ _ hi, edGet_edSet_ne _ _ _ _ hj]
      exact hm i j w

theorem lookup_lt_of_inv {d : DirGraph} {s : String} {i : Nat}
    (hdata : d.idmap.data = enumData d.idmap.lst)
    (h : d.idmap.lookup s = some i) : i < d.idmap.lst.length := by
  rw [IDmap.lookup, hdata] at h
  have := alookup_enumDataFrom_bound h
  omega

theorem DirGraph.addEdge_inv (d : DirGraph) (a b : String) (w : PyFloat)
    (red : Option String) (h : d.Inv) : (d.addEdge a b w red).1.1.Inv := by
  by_cases hred : red = none ∨ red = some "max" ∨ red = some "min"
  case neg =>
    rw [DirGraph.addEdge, if_neg hred]
    exact h
  rw [DirGraph.addEdge, if_pos hred]
  rcases hda : d.defaultAddId a with ⟨d1, e1⟩
  have hd1 : d1.Inv := by
    have := DirGraph.defaultAddId_inv d a h
    rw [hda] at this
    exact this
  cases e1 with
  | some e =>
    dsimp only
    exact hd1
  | none =>
  dsimp only
  rcases hdb : d1.defaultAddId b with ⟨d2, e2⟩
  have hd2 : d2.Inv := by
    have := DirGraph.defaultAddId_inv d1 b hd1
    rw [hdb] at this
    exact this
  cases e2 with
  | some e =>
    dsimp only
    exact hd2
  | none =>
  dsimp only
  obtain ⟨hdata, hfwd, hrev, hm⟩ := hd2
  cases hla : d2.idmap.lookup a with
  | none =>
    rw [SparseGraph.addEdgeRaw]
    rw [show d2.toSparse.idmap = d2.idmap from rfl, hla]
    dsimp only
    exact ⟨hdata, hfwd, hrev, hm⟩
  | some ia =>
  cases hlb : d2.idmap.lookup b with
  | none =>
    rw [SparseGraph.addEdgeRaw]
    rw [show d2.toSparse.idmap = d2.idmap from rfl, hla, hlb]
    dsimp only
    exact ⟨hdata, hfwd, hrev, hm⟩
  | some ib =>
  have hia : ia < d2.edgeData.length := by
    rw [hfwd]
    exact lookup_lt_of_inv hdata hla
  have hib : ib < d2.revEdgeData.length := by
    rw [hrev]
    exact lookup_lt_of_inv hdata hlb
  have hia' : ia < d2.revEdgeData.length := by
    rw [hrev]
    exact lookup_lt_of_inv hdata hla
  have hib' : ib < d2.edgeData.length := by
    rw [hfwd]
    exact lookup_lt_of_inv hdata hlb
  by_cases hij : ia = ib
  · subst hij
    rw [SparseGraph.addEdgeRaw]
    rw [show d2.toSparse.idmap = d2.idmap from rfl, hla, hlb]
    dsimp only
    rw [if_pos (by simp [DirGraph.toSparse])]
    dsimp only
    rw [SparseGraph.addEdgeRaw]
    rw [show ({ d2 with edgeData := d2.edgeData } : DirGraph).toSparse.idmap = d2.idmap from rfl,
      hla, hlb]
    dsimp only
    rw [if_pos (by simp [DirGraph.toSparse])]
    exact ⟨hdata, hfwd, hrev, hm⟩
  · rw [SparseGraph.addEdgeRaw]
    rw [show d2.toSparse.idmap = d2.idmap from rfl, hla, hlb]
    dsimp only
    rw [if_neg (by simp [DirGraph.toSparse, hij])]
    dsimp only
    rw [show d2.toSparse.directed = true from rfl]
    rw [if_neg (by simp)]
    rw [SparseGraph.addEdgeRaw]
    dsimp only
    rw [show ∀ ed, ({ d2 with edgeData := ed } : DirGraph).toSparse.idmap = d2.idmap
      from fun _ => rfl, hla, hlb]
    dsimp only
    rw [if_neg (by simp [DirGraph.toSparse]; exact fun hh => hij hh.symm)]
    rw [show ∀ ed, ({ d2 with edgeData := ed } : DirGraph).toSparse.directed = true
      from fun _ => rfl]
    rw [if_neg (by simp)]
    dsimp only
    have hold : alookup (edGet d2.edgeData ia) ib = alookup (edGet d2.revEdgeData ib) ia :=
      mirror_old_eq ia ib hm
    refine ⟨hdata, ?_, ?_, ?_⟩
    · rw [length_edSet]
      exact hfwd
    · rw [length_edSet]
      exact hrev
    · rw [← hold]
      exact mirror_update ia ib _ hm hia hib

theorem DOp.apply_inv (d : DirGraph) (op : DOp) (h : d.Inv) : (op.apply d).1.Inv := by
  cases op with
  | addId s => exact DirGraph.addId_inv d s h
  | addEdge a b w red =>
    rw [DOp.apply]
    rcases hae : d.addEdge a b w red with ⟨⟨d1, warn⟩, err⟩
    have := DirGraph.addEdge_inv d a b w red h
    rw [hae] at this
    exact this

theorem runDOps_inv (ops : List DOp) (d : DirGraph) (h : d.Inv) : (runDOps ops d).Inv := by
  induction ops generalizing d with
  | nil => exact h
  | cons op rest ih =>
    rw [runDOps]
    rcases hap : op.apply d with ⟨d1, e⟩
    have hd1 : d1.Inv := by
      have := DOp.apply_inv d op h
      rw [hap] at this
      exact this
    cases e with
    | none => exact ih d1 hd1
    | some _ => exact hd1

/-- C4: after every sequence of `add_id`/`add_edge` operations on a fresh
`DirectedSparseGraph`, the reversed store mirrors the forward store
exactly (`rev[j][i] == fwd[i][j]`, and only those entries); in particular
`add_edge("a","b",2.0)` gives `forward["a"]["b"] == 2.0` and
`reverse["b"]["a"] == 2.0` while `forward["b"]["a"]` is absent. -/
theorem dirGraph_mirror_spec :
    (∀ (ops : List DOp) (i j : Nat) (w : PyFloat),
      alookup (edGet (runDOps ops (DirGraph.empty true)).edgeData i) j = some w ↔
      alookup (edGet (runDOps ops (DirGraph.empty true)).revEdgeData j) i = some w)
    ∧ alookup (edGet (((DirGraph.empty true).addEdge "a" "b" ⟨2, 1⟩ none).1.1.edgeData) 0) 1
        = some ⟨2, 1⟩
    ∧ alookup (edGet (((DirGraph.empty true).addEdge "a" "b" ⟨2, 1⟩ none).1.1.revEdgeData) 1) 0
        = some ⟨2, 1⟩
    ∧ alookup (edGet (((DirGraph.empty true).addEdge "a" "b" ⟨2, 1⟩ none).1.1.edgeData) 1) 0
        = none := by
  refine ⟨?_, by decide, by decide, by decide⟩
  intro ops i j w
  exact (runDOps_inv ops (DirGraph.empty true) (DirGraph.inv_empty true)).2.2.2 i j w

/-! ### Archive round-trip lemmas -/

theorem fromListGo_eq (ids : List String) (m : IDmap)
    (hc : ∀ s ∈ ids, canonId s = s)
    (hnd : (m.lst ++ ids).Nodup)
    (hdata : m.data = enumData m.lst) :
    IDmap.fromListGo ids m = (⟨enumData (m.lst ++ ids), m.lst ++ ids⟩, none) := by
  induction ids generalizing m with
  | nil =>
    obtain ⟨dta, lst⟩ := m
    simp only at hdata
    subst hdata
    simp [IDmap.fromListGo]
  | cons s rest ih =>
    have hcs : canonId s = s := hc s (List.mem_cons_self _ _)
    have hs_not : s ∉ m.lst := by
      rw [List.nodup_append] at hnd
      intro hmem
      exact hnd.2.2 hmem (List.mem_cons_self _ _)
    have hnone : (alookup m.data (canonId s)).isSome = false := by
      rw [hcs, hdata, enumData, alookup_enumDataFrom_of_not_mem 0 hs_not]
      rfl
    rw [IDmap.fromListGo, IDmap.addID_ok m s hnone]
    dsimp only
    rw [hcs]
    have hsz : m.size = m.lst.length := by
      rw [IDmap.size, hdata, enumData, length_enumDataFrom]
    rw [hsz]
    have hdata1 : m.data ++ [(s, m.lst.length)] = enumData (m.lst ++ [s]) := by
      rw [hdata, enumData_append_single]
    rw [ih ⟨m.data ++ [(s, m.lst.length)], m.lst ++ [s]⟩
      (fun x hx => hc x (List.mem_cons_of_mem _ hx))
      (by rw [List.append_assoc]; simpa using hnd) hdata1]
    rw [List.append_assoc]
    rfl

theorem fromList_eq (ids : List String)
    (hc : ∀ s ∈ ids, canonId s = s) (hnd : ids.Nodup) :
    IDmap.fromList ids = (⟨enumData ids, ids⟩, none) := by
  rw [IDmap.fromList, fromListGo_eq ids IDmap.empty hc (by simpa [IDmap.empty] using hnd) rfl]
  rfl

theorem foldl_dinsert_eq (m pre : NbrMap) (hnd : (akeys (pre ++ m)).Nodup) :
    List.foldl (fun acc q => dinsert acc q.1 q.2) pre m = pre ++ m := by
  induction m generalizing pre with
  | nil => simp
  | cons q rest ih =>
    have hq : q.1 ∉ akeys pre := by
      simp only [akeys, List.map_append, List.nodup_append] at hnd
      intro hmem
      exact hnd.2.2 hmem (by simp)
    rw [List.foldl_cons, dinsert_fresh q.2 hq]
    have : pre ++ [(q.1, q.2)] = pre ++ [q] := by simp
    rw [this, ih (pre ++ [q]) (by simpa using hnd)]
    simp

theorem edSet_edGet_self (st : EdgeData) (i : Nat) (hi : i < st.length) :
    edSet st i (edGet st i) = st := by
  induction st generalizing i with
  | nil => simp at hi
  | cons r rest ih =>
    cases i with
    | zero => rfl
    | succ i' =>
      have h2 := ih i' (by simpa using hi)
      simp only [edSet, edGet, List.getD, List.get?_eq_getElem?] at h2 ⊢
      simp [h2]

theorem rebuild_row (st : EdgeData) (i : Nat) (row : NbrMap) (hi : i < st.length) :
    List.foldl (fun s2 e => edSet s2 e.1.1 (dinsert (edGet s2 e.1.1) e.1.2 e.2)) st
        (row.map fun q => ((i, q.1), q.2))
      = edSet st i (List.foldl (fun acc q => dinsert acc q.1 q.2) (edGet st i) row) := by
  induction row generalizing st with
  | nil => simp [edSet_edGet_self st i hi]
  | cons q rest ih =>
    rw [List.map_cons, List.foldl_cons, List.foldl_cons]
    dsimp only
    have hi1 : i < (edSet st i (dinsert (edGet st i) q.1 q.2)).length := by
      rw [length_edSet]
      exact hi
    rw [ih (edSet st i (dinsert (edGet st i) q.1 q.2)) hi1]
    rw [edGet_edSet_self _ hi, edSet_edSet]

theorem edGet_append_cons (pre : EdgeData) (x : NbrMap) (tail : EdgeData) :
    edGet (pre ++ x :: tail) pre.length = x := by
  rw [edGet, List.getD, List.get?_eq_getElem?, List.getElem?_append_right (Nat.le_refl _)]
  simp

theorem edSet_append_cons (pre : EdgeData) (x y : NbrMap) (tail : EdgeData) :
    edSet (pre ++ x :: tail) pre.length y = pre ++ y :: tail := by
  induction pre with
  | nil => rfl
  | cons p rest ih =>
    simp only [edSet] at ih
    simp only [edSet, List.cons_append, List.length_cons, List.set_cons_succ]
    rw [ih]

theorem rebuild_flatten (rows pre : EdgeData)
    (hk : ∀ r ∈ rows, (akeys r).Nodup) :
    rebuildStore (pre ++ List.replicate rows.length []) (flattenFrom pre.length rows)
      = pre ++ rows := by
  induction rows generalizing pre with
  | nil => simp [rebuildStore, flattenFrom]
  | cons row rest ih =>
    rw [flattenFrom, rebuildStore, List.foldl_append]
    have hlen : pre.length < (pre ++ List.replicate (row :: rest).length ([] : NbrMap)).length := by
      simp
    rw [List.length_cons, List.replicate_succ]
    have hfold := rebuild_row (pre ++ [] :: List.replicate rest.length ([] : NbrMap))
      pre.length row (by simp)
    rw [hfold, edGet_append_cons, edSet_append_cons]
    rw [foldl_dinsert_eq row [] (by simpa using hk row (List.mem_cons_self _ _))]
    dsimp only [List.nil_append]
    have : pre ++ row :: List.replicate rest.length ([] : NbrMap)
        = (pre ++ [row]) ++ List.replicate rest.length ([] : NbrMap) := by simp
    rw [this]
    have hlen2 : pre.length + 1 = (pre ++ [row]).length := by simp
    rw [hlen2]
    rw [show List.foldl (fun st e => edSet st e.1.1 (dinsert (edGet st e.1.1) e.1.2 e.2))
        ((pre ++ [row]) ++ List.replicate rest.length []) (flattenFrom (pre ++ [row]).length rest)
      = rebuildStore ((pre ++ [row]) ++ List.replicate rest.length [])
          (flattenFrom (pre ++ [row]).length rest) from rfl]
    rw [ih (pre ++ [row]) (fun r hr => hk r (List.mem_cons_of_mem _ hr))]
    simp

theorem flattenFrom_map_one (i : Nat) (ed : EdgeData) :
    flattenFrom i (ed.map fun row => row.map fun q => (q.1, one))
      = (flattenFrom i ed).map fun e => (e.1, one) := by
  induction ed generalizing i with
  | nil => rfl
  | cons row rest ih =>
    rw [List.map_cons, flattenFrom, flattenFrom, ih (i + 1), List.map_append]
    congr 1
    simp

theorem akeys_map_one (row : NbrMap) :
    akeys (row.map fun q => (q.1, one)) = akeys row := by
  simp [akeys, List.map_map]
  try rfl

/-- C6: archive round trip.  Saving a well-formed graph with `save_npz`
and loading the arrays back through `from_npz`/`read_npz` with the
matching `weighted` flag reproduces the node identifiers in identical
order and the identical edge set: with `weighted=True` the stored weights
are reproduced exactly, and with `weighted=False` every reconstructed
edge carries weight `1.0`. -/
theorem npz_roundtrip_spec (g : SparseGraph) (hWF : g.WF) :
    ((fromNpz (saveNpz g true) true g.directed).2 = none
      ∧ (fromNpz (saveNpz g true) true g.directed).1.idmap = g.idmap
      ∧ (fromNpz (saveNpz g true) true g.directed).1.edgeData = g.edgeData)
    ∧ ((fromNpz (saveNpz g false) false g.directed).2 = none
      ∧ (fromNpz (saveNpz g false) false g.directed).1.idmap = g.idmap
      ∧ (fromNpz (saveNpz g false) false g.directed).1.edgeData
          = g.edgeData.map fun row => row.map fun q => (q.1, one)) := by
  obtain ⟨hdata, hnd, hcanon, hrows, hknd, hrest⟩ := hWF
  have hfl := fromList_eq g.idmap.lst hcanon hnd
  have hid : (⟨enumData g.idmap.lst, g.idmap.lst⟩ : IDmap) = g.idmap := by
    rw [← hdata]
  constructor
  · have hsave : saveNpz g true
        = ⟨g.idmap.lst, (flattenStore g.edgeData).map Prod.fst,
            some ((flattenStore g.edgeData).map Prod.snd)⟩ := by
      simp [saveNpz]
    rw [fromNpz, readNpz, hsave]
    dsimp only
    rw [hfl]
    dsimp only
    rw [show (SparseGraph.mkEmpty true g.directed false).weighted = true from rfl]
    rw [if_pos rfl]
    have hzip : ((flattenStore g.edgeData).map Prod.fst).zip
        ((flattenStore g.edgeData).map Prod.snd) = flattenStore g.edgeData :=
      (@List.zip_of_prod _ _ _ _ (flattenStore g.edgeData) rfl rfl).symm
    rw [hzip]
    have hbase : List.replicate g.idmap.lst.length ([] : NbrMap)
        = [] ++ List.replicate g.edgeData.length ([] : NbrMap) := by
      rw [hrows]
      rfl
    rw [hbase]
    rw [show flattenStore g.edgeData = flattenFrom ([] : EdgeData).length g.edgeData from rfl]
    rw [rebuild_flatten g.edgeData [] hknd]
    exact ⟨rfl, hid, rfl⟩
  · have hsave : saveNpz g false
        = ⟨g.idmap.lst, (flattenStore g.edgeData).map Prod.fst, none⟩ := by
      simp [saveNpz]
    rw [fromNpz, readNpz, hsave]
    dsimp only
    rw [hfl]
    dsimp only
    rw [if_neg (by simp [SparseGraph.mkEmpty])]
    have hmap : ((flattenStore g.edgeData).map Prod.fst).map (fun p => (p, one))
        = flattenFrom 0 (g.edgeData.map fun row => row.map fun q => (q.1, one)) := by
      rw [flattenFrom_map_one, flattenStore, List.map_map]
      rfl
    rw [hmap]
    have hbase : List.replicate g.idmap.lst.length ([] : NbrMap)
        = [] ++ List.replicate (g.edgeData.map fun row =>
            row.map fun q => (q.1, one)).length ([] : NbrMap) := by
      rw [List.length_map, hrows]
      rfl
    rw [hbase]
    rw [show (0 : Nat) = ([] : EdgeData).length from rfl]
    rw [rebuild_flatten (g.edgeData.map fun row => row.map fun q => (q.1, one)) []
      (by
        intro r hr
        obtain ⟨row, hrow, hEq⟩ := List.mem_map.mp hr
        rw [← hEq, akeys_map_one]
        exact hknd row hrow)]
    exact ⟨rfl, hid, rfl⟩

/-- Witness for C6 on the example weighted graph of the spec. -/
theorem npz_roundtrip_spec_witness :
    (fromNpz (saveNpz (fromEdglst "1\t3\t0.4\n1\t2\t1\n3\t4\t0.1\n" true false zero).1 true)
        true (fromEdglst "1\t3\t0.4\n1\t2\t1\n3\t4\t0.1\n" true false zero).1.directed).1.edgeData
      = (fromEdglst "1\t3\t0.4\n1\t2\t1\n3\t4\t0.1\n" true false zero).1.edgeData
    ∧ (fromNpz (saveNpz (fromEdglst "1\t3\t0.4\n1\t2\t1\n3\t4\t0.1\n" true false zero).1 true)
        true (fromEdglst "1\t3\t0.4\n1\t2\t1\n3\t4\t0.1\n" true false zero).1.directed).1.idmap
      = (fromEdglst "1\t3\t0.4\n1\t2\t1\n3\t4\t0.1\n" true false zero).1.idmap := by
  have h := npz_roundtrip_spec
    (fromEdglst "1\t3\t0.4\n1\t2\t1\n3\t4\t0.1\n" true false zero).1 (by decide)
  exact ⟨h.1.2.2, h.1.2.1⟩

/-! ### Induced-subgraph lemmas -/

theorem alookup_of_mem_nodup {κ α : Type} [DecidableEq κ] {m : List (κ × α)} {k : κ} {v : α}
    (hnd : (akeys m).Nodup) (hmem : (k, v) ∈ m) : alookup m k = some v := by
  induction m with
  | nil => simp at hmem
  | cons p rest ih =>
    rcases List.mem_cons.mp hmem with h1 | h1
    · subst h1
      rw [alookup, if_pos rfl]
    · have hp : p.1 ≠ k := by
        intro hh
        simp only [akeys, List.map_cons, List.nodup_cons] at hnd
        exact hnd.1 (hh ▸ List.mem_map_of_mem Prod.fst h1)
      rw [alookup, if_neg hp]
      exact ih (by simpa [akeys] using (List.nodup_cons.mp (by simpa [akeys] using hnd)).2) h1

theorem alookup_dinsert_isSome {κ α : Type} [DecidableEq κ] (m : List (κ × α)) (k k' : κ)
    (v : α) (h : (alookup m k).isSome = true) :
    (alookup (dinsert m k' v) k).isSome = true := by
  by_cases hk : k = k'
  · subst hk
    rw [alookup_dinsert_self]
    rfl
  · rw [alookup_dinsert_ne _ _ _ _ hk]
    exact h

/-- `add_edge` with `reduction=None` on present identifiers always
commits the new weight (last-writer-wins). -/
theorem addEdge_none_write (t : SparseGraph) (a b : String) (w : PyFloat) (pa pb : Nat)
    (ha : t.idmap.lookup a = some pa) (hb : t.idmap.lookup b = some pb)
    (hskip : ¬(¬t.selfLoops ∧ pa = pb)) :
    t.addEdge a b w none =
      (({ t with edgeData := mirrorWrite t.directed t.edgeData pa pb w },
        match alookup (edGet t.edgeData pa) pb with
        | some ow => !ow.beq w
        | none => false), none) := by
  rw [addEdge_write t a b w none pa pb (Or.inl rfl) ha hb hskip]
  dsimp only [mirrorWrite]
  cases hoe : alookup (edGet t.edgeData pa) pb with
  | none => rfl
  | some ow => simp only [ite_self, Option.isNone_none, Bool.and_true]

theorem inducedAddIds_ok (g : SparseGraph) (ids : List String) :
    ∀ (t : SparseGraph),
    (∀ s ∈ ids, g.idmap.mem s = true) →
    (∀ s ∈ ids, canonId s = s) →
    (t.idmap.lst ++ ids).Nodup →
    t.idmap.data = enumData t.idmap.lst →
    inducedAddIds g ids t
      = ((⟨⟨enumData (t.idmap.lst ++ ids), t.idmap.lst ++ ids⟩,
          t.edgeData ++ List.replicate ids.length [],
          t.weighted, t.directed, t.selfLoops⟩ : SparseGraph), none) := by
  induction ids with
  | nil =>
    intro t _ _ _ hdata
    have hid : (⟨enumData t.idmap.lst, t.idmap.lst⟩ : IDmap) = t.idmap := by rw [← hdata]
    simp [inducedAddIds, hid]
  | cons s rest ih =>
    intro t hmem hcanon hnd hdata
    have hcs : canonId s = s := hcanon s (List.mem_cons_self _ _)
    have hs_not : s ∉ t.idmap.lst := by
      rw [List.nodup_append] at hnd
      intro hc
      exact hnd.2.2 hc (List.mem_cons_self _ _)
    have hfresh : (alookup t.idmap.data (canonId s)).isSome = false := by
      rw [hcs, hdata, enumData, alookup_enumDataFrom_of_not_mem 0 hs_not]
      rfl
    have hsz : t.idmap.size = t.idmap.lst.length := by
      rw [IDmap.size, hdata, enumData, length_enumDataFrom]
    have haddid : t.addId s
        = ((⟨⟨t.idmap.data ++ [(s, t.idmap.lst.length)], t.idmap.lst ++ [s]⟩,
            t.edgeData ++ [[]], t.weighted, t.directed, t.selfLoops⟩ : SparseGraph), none) := by
      rw [SparseGraph.addId, IDmap.addID_ok t.idmap s hfresh]
      dsimp only
      rw [hcs, hsz]
    rw [inducedAddIds, if_neg (by simp [hmem s (List.mem_cons_self _ _)]), haddid]
    dsimp only
    rw [ih _ (fun x hx => hmem x (List.mem_cons_of_mem _ hx))
      (fun x hx => hcanon x (List.mem_cons_of_mem _ hx))
      (by
        show ((t.idmap.lst ++ [s]) ++ rest).Nodup
        rw [List.append_assoc]
        simpa using hnd)
      (by
        show t.idmap.data ++ [(s, t.idmap.lst.length)] = enumData (t.idmap.lst ++ [s])
        rw [hdata, enumData_append_single])]
    dsimp only
    rw [List.append_assoc]
    have hrep : [([] : NbrMap)] ++ List.replicate rest.length [] = List.replicate (rest.length + 1) [] := by
      simp [List.replicate_succ]
    rw [List.append_assoc, hrep]
    rfl

theorem inducedAddIds_err (g : SparseGraph) (ids : List String) :
    ∀ (t : SparseGraph),
    (∃ s ∈ ids, g.idmap.mem s = false) →
    (∀ s ∈ ids, g.idmap.mem s = true → canonId s = s) →
    (t.idmap.lst ++ ids).Nodup →
    t.idmap.data = enumData t.idmap.lst →
    (inducedAddIds g ids t).2 = some Err.unknownId := by
  induction ids with
  | nil =>
    intro t hex _ _ _
    simp at hex
  | cons s rest ih =>
    intro t hex hcanon hnd hdata
    by_cases hm : g.idmap.mem s = true
    · have hcs : canonId s = s := hcanon s (List.mem_cons_self _ _) hm
      have hs_not : s ∉ t.idmap.lst := by
        rw [List.nodup_append] at hnd
        intro hc
        exact hnd.2.2 hc (List.mem_cons_self _ _)
      have hfresh : (alookup t.idmap.data (canonId s)).isSome = false := by
        rw [hcs, hdata, enumData, alookup_enumDataFrom_of_not_mem 0 hs_not]
        rfl
      have hsz : t.idmap.size = t.idmap.lst.length := by
        rw [IDmap.size, hdata, enumData, length_enumDataFrom]
      have haddid : t.addId s
          = ((⟨⟨t.idmap.data ++ [(s, t.idmap.lst.length)], t.idmap.lst ++ [s]⟩,
              t.edgeData ++ [[]], t.weighted, t.directed, t.selfLoops⟩ : SparseGraph), none) := by
        rw [SparseGraph.addId, IDmap.addID_ok t.idmap s hfresh]
        dsimp only
        rw [hcs, hsz]
      rw [inducedAddIds, if_neg (by simp [hm]), haddid]
      dsimp only
      apply ih
      · rcases hex with ⟨x, hx, hxf⟩
        rcases List.mem_cons.mp hx with h1 | h1
        · subst h1
          rw [hm] at hxf
          exact Bool.noConfusion hxf
        · exact ⟨x, h1, hxf⟩
      · exact fun x hx => hcanon x (List.mem_cons_of_mem _ hx)
      · show ((t.idmap.lst ++ [s]) ++ rest).Nodup
        rw [List.append_assoc]
        simpa using hnd
      · show t.idmap.data ++ [(s, t.idmap.lst.length)] = enumData (t.idmap.lst ++ [s])
        rw [hdata, enumData_append_single]
    · rw [inducedAddIds, if_pos (by simpa using hm)]

theorem alookup_mirrorWrite (ed : EdgeData) (ia ib : Nat) (w : PyFloat) (dir : Bool)
    (hia : ia < ed.length) :
    alookup (edGet (mirrorWrite dir ed ia ib w) ia) ib = some w := by
  unfold mirrorWrite
  exact alookup_mirror_write ed ia ib w dir hia

/-- Soundness of one cell write: every cell of the result either was
already present or is the written cell. -/
theorem edSetInsert_sound (ed : EdgeData) (pa pb : Nat) (w : PyFloat)
    (S : Nat → Nat → PyFloat → Prop) (hpa : pa < ed.length)
    (hold : ∀ ia ib u, alookup (edGet ed ia) ib = some u → S ia ib u)
    (hnew : S pa pb w) :
    ∀ ia ib u,
      alookup (edGet (edSet ed pa (dinsert (edGet ed pa) pb w)) ia) ib = some u →
      S ia ib u := by
  intro ia ib u hu
  by_cases hi : ia = pa
  · subst hi
    rw [edGet_edSet_self _ hpa] at hu
    by_cases hj : ib = pb
    · subst hj
      rw [alookup_dinsert_self] at hu
      injection hu with hu
      exact hu ▸ hnew
    · rw [alookup_dinsert_ne _ _ _ _ hj] at hu
      exact hold _ _ _ hu
  · rw [edGet_edSet_ne _ _ _ _ hi] at hu
    exact hold _ _ _ hu

/-- One cell write never deletes a present cell. -/
theorem edSetInsert_monotone (ed : EdgeData) (pa pb : Nat) (w : PyFloat)
    (hpa : pa < ed.length) :
    ∀ ia ib, (alookup (edGet ed ia) ib).isSome = true →
      (alookup (edGet (edSet ed pa (dinsert (edGet ed pa) pb w)) ia) ib).isSome = true := by
  intro ia ib h
  by_cases hi : ia = pa
  · subst hi
    rw [edGet_edSet_self _ hpa]
    exact alookup_dinsert_isSome _ _ _ _ h
  · rw [edGet_edSet_ne _ _ _ _ hi]
    exact h

/-- Every cell of the committed store either was already present or is
one of the two written cells. -/
theorem mirrorWrite_sound (dir : Bool) (ed : EdgeData) (pa pb : Nat) (w : PyFloat)
    (S : Nat → Nat → PyFloat → Prop)
    (hpa : pa < ed.length) (hpb : pb < ed.length)
    (hold : ∀ ia ib u, alookup (edGet ed ia) ib = some u → S ia ib u)
    (hnew : S pa pb w) (hmirror : dir = false → S pb pa w) :
    ∀ ia ib u, alookup (edGet (mirrorWrite dir ed pa pb w) ia) ib = some u →
      S ia ib u := by
  unfold mirrorWrite
  cases dir with
  | true =>
    rw [if_neg (by simp)]
    exact edSetInsert_sound ed pa pb w S hpa hold hnew
  | false =>
    rw [if_pos (by simp)]
    have hpb1 : pb < (edSet ed pa (dinsert (edGet ed pa) pb w)).length := by
      rw [length_edSet]; exact hpb
    exact edSetInsert_sound _ pb pa w S hpb1
      (edSetInsert_sound ed pa pb w S hpa hold hnew) (hmirror rfl)

/-- The commit never deletes a cell. -/
theorem mirrorWrite_monotone (dir : Bool) (ed : EdgeData) (pa pb : Nat) (w : PyFloat)
    (hpa : pa < ed.length) (hpb : pb < ed.length) :
    ∀ ia ib, (alookup (edGet ed ia) ib).isSome = true →
      (alookup (edGet (mirrorWrite dir ed pa pb w) ia) ib).isSome = true := by
  unfold mirrorWrite
  cases dir with
  | true =>
    rw [if_neg (by simp)]
    exact edSetInsert_monotone ed pa pb w hpa
  | false =>
    rw [if_pos (by simp)]
    have hpb1 : pb < (edSet ed pa (dinsert (edGet ed pa) pb w)).length := by
      rw [length_edSet]; exact hpb
    intro ia ib h
    exact edSetInsert_monotone _ pb pa w hpb1 ia ib
      (edSetInsert_monotone ed pa pb w hpa ia ib h)

/-- The `add_edge` fold of `induced_subgraph`'s second pass: no error,
the IDmap is untouched, every final cell comes from a source edge among
the requested identifiers, and every processed pair is present in the
final store. -/
theorem readEdges_induced (g : SparseGraph) (ids : List String)
    (hWF : g.WF) (hnd : ids.Nodup) :
    ∀ (P : List (String × String × PyFloat)) (t : SparseGraph),
    (∀ p ∈ P, p.1 ∈ ids ∧ p.2.1 ∈ ids ∧
      ∃ i j, g.idmap.lookup p.1 = some i ∧ g.idmap.lookup p.2.1 = some j ∧
        alookup (edGet g.edgeData i) j = some p.2.2) →
    t.idmap = ⟨enumData ids, ids⟩ →
    t.directed = g.directed →
    t.selfLoops = g.selfLoops →
    t.edgeData.length = ids.length →
    (∀ ia ib u, alookup (edGet t.edgeData ia) ib = some u → SRel g ids ia ib u) →
    (readEdges P t).2 = none
    ∧ (readEdges P t).1.idmap = ⟨enumData ids, ids⟩
    ∧ (∀ ia ib u, alookup (edGet (readEdges P t).1.edgeData ia) ib = some u →
        SRel g ids ia ib u)
    ∧ (∀ ia ib, (alookup (edGet t.edgeData ia) ib).isSome = true →
        (alookup (edGet (readEdges P t).1.edgeData ia) ib).isSome = true)
    ∧ (∀ p ∈ P, ∀ pa pb, alookup (enumData ids) p.1 = some pa →
        alookup (enumData ids) p.2.1 = some pb →
        (alookup (edGet (readEdges P t).1.edgeData pa) pb).isSome = true) := by
  intro P
  induction P with
  | nil =>
    intro t _ hid _ _ _ hsound
    exact ⟨rfl, hid, hsound, fun _ _ h => h, by intro p hp; simp at hp⟩
  | cons p rest ih =>
    intro t hP hid hdir hsl hlen hsound
    obtain ⟨a, b, w⟩ := p
    obtain ⟨ha_mem, hb_mem, i, j, hgla, hglb, hge⟩ := hP (a, b, w) (List.mem_cons_self _ _)
    obtain ⟨pa, hja⟩ := List.getElem?_of_mem ha_mem
    obtain ⟨pb, hjb⟩ := List.getElem?_of_mem hb_mem
    have hpa_lt : pa < ids.length := by
      have := List.getElem?_eq_some_iff.mp hja
      exact this.1
    have hpb_lt : pb < ids.length := by
      have := List.getElem?_eq_some_iff.mp hjb
      exact this.1
    have hlka : alookup (enumData ids) a = some pa := by
      have := alookup_enumDataFrom_get (l := ids) 0 hnd hja
      simpa using this
    have hlkb : alookup (enumData ids) b = some pb := by
      have := alookup_enumDataFrom_get (l := ids) 0 hnd hjb
      simpa using this
    have hta : t.idmap.lookup a = some pa := by
      rw [hid]
      exact hlka
    have htb : t.idmap.lookup b = some pb := by
      rw [hid]
      exact hlkb
    have hi_lt : i < g.edgeData.length := by
      apply edGet_pos
      intro hh
      rw [hh] at hge
      simp [alookup] at hge
    have hskip : ¬(¬t.selfLoops ∧ pa = pb) := by
      rintro ⟨hsl_f, hEq⟩
      have hab : a = b := by
        have h1 : ids[pb]? = some a := hEq ▸ hja
        rw [h1] at hjb
        exact Option.some.inj hjb
      subst hab
      have hij : i = j := by
        rw [hgla] at hglb
        injection hglb
      subst hij
      have hgsl : g.selfLoops = false := by
        rw [← hsl]
        revert hsl_f
        cases t.selfLoops <;> simp
      obtain ⟨_, _, _, _, _, _, _, hnl⟩ := hWF
      rw [hnl hgsl i hi_lt] at hge
      exact Option.noConfusion hge
    have hstep := addEdge_none_write t a b w pa pb hta htb hskip
    rw [readEdges, hstep]
    dsimp only
    have hpa_lt' : pa < t.edgeData.length := by rw [hlen]; exact hpa_lt
    have hpb_lt' : pb < t.edgeData.length := by rw [hlen]; exact hpb_lt
    have hnew : SRel g ids pa pb w := ⟨a, b, i, j, hja, hjb, hgla, hglb, hge⟩
    have hmirror : t.directed = false → SRel g ids pb pa w := by
      intro hdf
      obtain ⟨_, _, _, _, _, _, hsym, _⟩ := hWF
      have hsymm := hsym (by rw [← hdir]; exact hdf) i hi_lt (j, w) (alookup_mem hge)
      exact ⟨b, a, j, i, hjb, hja, hglb, hgla, hsymm⟩
    have hrec := ih { t with edgeData := mirrorWrite t.directed t.edgeData pa pb w }
      (fun q hq => hP q (List.mem_cons_of_mem _ hq))
      (by dsimp only; exact hid)
      (by dsimp only; exact hdir)
      (by dsimp only; exact hsl)
      (by
        dsimp only
        unfold mirrorWrite
        cases t.directed <;> simp [length_edSet, hlen])
      (by
        dsimp only
        exact mirrorWrite_sound t.directed t.edgeData pa pb w (SRel g ids)
          hpa_lt' hpb_lt' hsound hnew hmirror)
    obtain ⟨e1, e2, e3, e4, e5⟩ := hrec
    refine ⟨e1, e2, e3, ?_, ?_⟩
    · intro ia ib hpres
      apply e4
      dsimp only
      exact mirrorWrite_monotone t.directed t.edgeData pa pb w hpa_lt' hpb_lt' ia ib hpres
    · intro q hq qa qb hqa hqb
      rcases List.mem_cons.mp hq with h1 | h1
      · subst h1
        dsimp only at hqa hqb
        rw [hlka] at hqa
        rw [hlkb] at hqb
        injection hqa with hqa
        injection hqb with hqb
        subst hqa hqb
        apply e4
        dsimp only
        rw [alookup_mirrorWrite t.edgeData pa pb w t.directed hpa_lt']
        try rfl
      · exact e5 q h1 qa qb hqa hqb

theorem edGet_mem {ed : EdgeData} {i : Nat} (h : i < ed.length) : edGet ed i ∈ ed := by
  rw [edGet, List.getD, List.get?_eq_getElem?, List.getElem?_eq_getElem h]
  exact List.getElem_mem h

/-- Every pair emitted by the second pass of `induced_subgraph` has both
identifiers among the requested ones and comes from a stored source edge. -/
theorem inducedPairs_prop (g : SparseGraph) (ids : List String) (hWF : g.WF) :
    ∀ p ∈ inducedPairs g ids, p.1 ∈ ids ∧ p.2.1 ∈ ids ∧
      ∃ i j, g.idmap.lookup p.1 = some i ∧ g.idmap.lookup p.2.1 = some j ∧
        alookup (edGet g.edgeData i) j = some p.2.2 := by
  obtain ⟨hdata, hndsrc, _, hrows, hknd, _⟩ := hWF
  intro p hp
  rw [inducedPairs] at hp
  obtain ⟨a, ha, hinner⟩ := List.mem_flatMap.mp hp
  cases hla : g.idmap.lookup a with
  | none =>
    rw [hla] at hinner
    simp at hinner
  | some ia =>
    rw [hla] at hinner
    dsimp only at hinner
    obtain ⟨q, hq, hfq⟩ := List.mem_filterMap.mp hinner
    cases hgb : g.idmap.lst.get? q.1 with
    | none =>
      rw [hgb] at hfq
      simp at hfq
    | some b =>
      rw [hgb] at hfq
      dsimp only at hfq
      by_cases hbin : b ∈ ids
      · rw [if_pos hbin] at hfq
        injection hfq with hfq
        subst hfq
        have hrow_lt : ia < g.edgeData.length := by
          apply edGet_pos
          intro hh
          rw [hh] at hq
          simp at hq
        refine ⟨ha, hbin, ia, q.1, hla, ?_, ?_⟩
        · rw [IDmap.lookup, hdata]
          apply (alookup_enumData_iff hndsrc b q.1).mpr
          rw [← List.get?_eq_getElem?]
          exact hgb
        · exact alookup_of_mem_nodup (hknd _ (edGet_mem hrow_lt)) hq
      · rw [if_neg hbin] at hfq
        exact Option.noConfusion hfq

/-- Conversely, every stored source edge with both endpoints requested is
emitted by the second pass. -/
theorem mem_inducedPairs (g : SparseGraph) (ids : List String) (hWF : g.WF)
    (sa sb : String) (i j : Nat) (w : PyFloat)
    (hsa : sa ∈ ids) (hsb : sb ∈ ids)
    (hla : g.idmap.lookup sa = some i) (hlb : g.idmap.lookup sb = some j)
    (he : alookup (edGet g.edgeData i) j = some w) :
    (sa, sb, w) ∈ inducedPairs g ids := by
  obtain ⟨hdata, hndsrc, _⟩ := hWF
  rw [inducedPairs]
  apply List.mem_flatMap.mpr
  refine ⟨sa, hsa, ?_⟩
  rw [hla]
  dsimp only
  apply List.mem_filterMap.mpr
  refine ⟨(j, w), alookup_mem he, ?_⟩
  have hjb : g.idmap.lst.get? j = some sb := by
    rw [List.get?_eq_getElem?]
    apply (alookup_enumData_iff hndsrc sb j).mp
    rw [IDmap.lookup, hdata] at hlb
    exact hlb
  rw [hjb]
  dsimp only
  rw [if_pos hsb]

/-- C5: `induced_subgraph(ids)` (for a duplicate-free request) raises
`UnknownIdError` when any requested id is absent from the source graph;
on success it returns a new graph whose IDmap holds exactly the requested
ids in the requested order, and which stores an edge between positions
`ia` and `ib` with weight `w` iff both endpoints are requested and the
source graph stores that edge with weight `w` (weights copied verbatim). -/
theorem inducedSubgraph_spec (g : SparseGraph) (ids : List String)
    (hWF : g.WF) (hnd : ids.Nodup) :
    ((∃ s ∈ ids, g.idmap.mem s = false) →
        (inducedSubgraph g ids).2 = some Err.unknownId)
    ∧ ((∀ s ∈ ids, g.idmap.mem s = true) →
        (inducedSubgraph g ids).2 = none
        ∧ (inducedSubgraph g ids).1.idmap.lst = ids
        ∧ ∀ ia ib w,
            alookup (edGet (inducedSubgraph g ids).1.edgeData ia) ib = some w ↔
              SRel g ids ia ib w) := by
  have hcanon_mem : ∀ s ∈ ids, g.idmap.mem s = true → canonId s = s := by
    intro s _ hm
    obtain ⟨hdata, _, hcan, _⟩ := hWF
    rw [IDmap.mem, hdata] at hm
    obtain ⟨v, hv⟩ := Option.isSome_iff_exists.mp hm
    exact hcan s (mem_of_alookup_enumDataFrom hv)
  constructor
  · intro hex
    have herr := inducedAddIds_err g ids
      (SparseGraph.mkEmpty g.weighted g.directed g.selfLoops) hex hcanon_mem
      (by simpa [SparseGraph.mkEmpty, IDmap.empty] using hnd) rfl
    rw [inducedSubgraph]
    rcases hia : inducedAddIds g ids
      (SparseGraph.mkEmpty g.weighted g.directed g.selfLoops) with ⟨t1, e⟩
    rw [hia] at herr
    dsimp only at herr
    subst herr
    rfl
  · intro hall
    have hcanon : ∀ s ∈ ids, canonId s = s := fun s hs => hcanon_mem s hs (hall s hs)
    have hok := inducedAddIds_ok g ids
      (SparseGraph.mkEmpty g.weighted g.directed g.selfLoops) hall hcanon
      (by simpa [SparseGraph.mkEmpty, IDmap.empty] using hnd) rfl
    rw [inducedSubgraph, hok]
    dsimp only [SparseGraph.mkEmpty, IDmap.empty]
    rw [show (([] : List String) ++ ids) = ids from rfl]
    rw [show (([] : EdgeData) ++ List.replicate ids.length []) = List.replicate ids.length []
      from rfl]
    have hfold := readEdges_induced g ids hWF hnd (inducedPairs g ids)
      ⟨⟨enumData ids, ids⟩, List.replicate ids.length [], g.weighted, g.directed, g.selfLoops⟩
      (inducedPairs_prop g ids hWF) rfl rfl rfl
      (by simp)
      (by
        intro ia ib u hu
        rw [show edGet (List.replicate ids.length []) ia = [] from edGet_replicate _ _] at hu
        exact Option.noConfusion hu)
    obtain ⟨e1, e2, e3, e4, e5⟩ := hfold
    refine ⟨e1, ?_, ?_⟩
    · rw [e2]
    · intro ia ib w
      constructor
      · exact e3 ia ib w
      · intro hrel
        obtain ⟨sa, sb, i, j, hja, hjb, hgla, hglb, hge⟩ := hrel
        have hmemP := mem_inducedPairs g ids hWF sa sb i j w
          (List.getElem?_mem hja) (List.getElem?_mem hjb) hgla hglb hge
        have hlka : alookup (enumData ids) sa = some ia := by
          have := alookup_enumDataFrom_get (l := ids) 0 hnd hja
          simpa using this
        have hlkb : alookup (enumData ids) sb = some ib := by
          have := alookup_enumDataFrom_get (l := ids) 0 hnd hjb
          simpa using this
        have hpres := e5 (sa, sb, w) hmemP ia ib hlka hlkb
        obtain ⟨u, hu⟩ := Option.isSome_iff_exists.mp hpres
        have hSu := e3 ia ib u hu
        obtain ⟨sa', sb', i', j', hja', hjb', hgla', hglb', hge'⟩ := hSu
        have hsa' : sa' = sa := by
          rw [hja] at hja'
          exact (Option.some.inj hja').symm
        subst hsa'
        have hsb' : sb' = sb := by
          rw [hjb] at hjb'
          exact (Option.some.inj hjb').symm
        subst hsb'
        have hi' : i' = i := by
          rw [hgla] at hgla'
          exact (Option.some.inj hgla').symm
        subst hi'
        have hj' : j' = j := by
          rw [hglb] at hglb'
          exact (Option.some.inj hglb').symm
        subst hj'
        have huw : u = w := by
          rw [hge] at hge'
          exact (Option.some.inj hge').symm
        rw [← huw]
        exact hu

/-- Witness for C5 on the example graph: requesting `["1","9"]` raises,
requesting `["1","3"]` keeps exactly those nodes and their `0.4` edge. -/
theorem inducedSubgraph_spec_witness :
    (inducedSubgraph (fromEdglst "1\t3\t0.4\n1\t2\t1\n3\t4\t0.1\n" true false zero).1
        ["1", "9"]).2 = some Err.unknownId
    ∧ (inducedSubgraph (fromEdglst "1\t3\t0.4\n1\t2\t1\n3\t4\t0.1\n" true false zero).1
        ["1", "3"]).1.idmap.lst = ["1", "3"]
    ∧ alookup (edGet (inducedSubgraph
        (fromEdglst "1\t3\t0.4\n1\t2\t1\n3\t4\t0.1\n" true false zero).1
        ["1", "3"]).1.edgeData 0) 1 = some ⟨4, 10⟩ := by
  refine ⟨?_, ?_, ?_⟩
  · exact (inducedSubgraph_spec _ ["1", "9"] (by decide) (by decide)).1
      ⟨"9", by decide, by decide⟩
  · exact ((inducedSubgraph_spec _ ["1", "3"] (by decide) (by decide)).2 (by decide)).2.1
  · exact (((inducedSubgraph_spec _ ["1", "3"] (by decide) (by decide)).2
        (by decide)).2.2 0 1 ⟨4, 10⟩).mpr
      ⟨"1", "3", 0, 1, by decide, by decide, by decide, by decide, by decide⟩

/-- Witness for C2: `add_edge(a,b,1.0)` then `add_edge(a,b,3.0,...)` on a
fresh weighted undirected graph, exactly the spec's scenario. -/
theorem addEdge_reduction_spec_witness :
    exBeq (((SparseGraph.addEdge1 (SparseGraph.mkEmpty true false false) "a" "b"
        one).addEdge "a" "b" ⟨3, 1⟩ (some "max")).1.1.getEdge "a" "b") (one.pymax ⟨3, 1⟩) = true
    ∧ exBeq (((SparseGraph.addEdge1 (SparseGraph.mkEmpty true false false) "a" "b"
        one).addEdge "a" "b" ⟨3, 1⟩ (some "min")).1.1.getEdge "a" "b") (one.pymin ⟨3, 1⟩) = true
    ∧ exBeq (((SparseGraph.addEdge1 (SparseGraph.mkEmpty true false false) "a" "b"
        one).addEdge "a" "b" ⟨3, 1⟩ none).1.1.getEdge "a" "b") ⟨3, 1⟩ = true
    ∧ ((SparseGraph.addEdge1 (SparseGraph.mkEmpty true false false) "a" "b"
        one).addEdge "a" "b" ⟨3, 1⟩ none).2 = none
    ∧ ((SparseGraph.addEdge1 (SparseGraph.mkEmpty true false false) "a" "b"
        one).addEdge "a" "b" ⟨3, 1⟩ none).1.2 = !one.beq ⟨3, 1⟩ :=
  addEdge_reduction_spec _ "a" "b" one ⟨3, 1⟩ 0 1 (by decide) (by decide) (by decide) (by decide)

/-- C3: `get_edge(id1, id2)` returns the stored weight when the edge
exists, `0` when both identifiers are mapped but no edge is stored, and
raises `UnknownIdError` whenever either identifier is absent from the
IDmap — never silently `0` for an unmapped identifier. -/
theorem getEdge_spec (g : SparseGraph) (a b : String) :
    (∀ ia ib w, g.idmap.lookup a = some ia → g.idmap.lookup b = some ib →
        alookup (edGet g.edgeData ia) ib = some w → g.getEdge a b = .ok w)
    ∧ (∀ ia ib, g.idmap.lookup a = some ia → g.idmap.lookup b = some ib →
        alookup (edGet g.edgeData ia) ib = none → g.getEdge a b = .ok zero)
    ∧ (g.idmap.lookup a = none ∨ g.idmap.lookup b = none →
        g.getEdge a b = .error .unknownId) := by
  refine ⟨?_, ?_, ?_⟩
  · intro ia ib w ha hb he
    simp [SparseGraph.getEdge, ha, hb, he]
  · intro ia ib ha hb he
    simp [SparseGraph.getEdge, ha, hb, he]
  · intro h
    rcases h with h | h
    · simp [SparseGraph.getEdge, h]
    · cases ha : g.idmap.lookup a with
      | none => simp [SparseGraph.getEdge, ha]
      | some ia => simp [SparseGraph.getEdge, ha, h]

/-- Witness for C3 on a two-node graph with one stored edge. -/
theorem getEdge_spec_witness :
    (SparseGraph.addEdge1 (SparseGraph.mkEmpty true false false) "a" "b"
        ⟨2, 1⟩).getEdge "a" "b" = .ok ⟨2, 1⟩
    ∧ (SparseGraph.addEdge1 (SparseGraph.mkEmpty true false false) "a" "b"
        ⟨2, 1⟩).getEdge "a" "x" = .error .unknownId := by
  constructor
  · exact (getEdge_spec _ "a" "b").1 0 1 ⟨2, 1⟩ (by decide) (by decide) (by decide)
  · exact (getEdge_spec _ "a" "x").2.2 (Or.inr (by decide))

/-- C9: `add_edge` with a reduction argument outside
`{None, "max", "min"}` fails with `InvalidArgumentError` and leaves the
graph completely unchanged: the validation precedes every mutation, so no
node is auto-created and no edge entry is written. -/
theorem addEdge_invalid_reduction (g : SparseGraph) (a b : String) (w : PyFloat)
    (red : Option String)
    (h : ¬(red = none ∨ red = some "max" ∨ red = some "min")) :
    g.addEdge a b w red = ((g, false), some .invalidArgument) := by
  rw [SparseGraph.addEdge, if_neg h]

/-- Witness for C9 at `reduction="avg"` on a nonempty graph. -/
theorem addEdge_invalid_reduction_witness :
    (SparseGraph.addEdge1 (SparseGraph.mkEmpty true false false) "a" "b"
        ⟨2, 1⟩).addEdge "a" "c" one (some "avg")
      = ((SparseGraph.addEdge1 (SparseGraph.mkEmpty true false false) "a" "b"
        ⟨2, 1⟩, false), some .invalidArgument) :=
  addEdge_invalid_reduction _ "a" "c" one (some "avg") (by decide)

end Obnb
